import Mathlib

/-!
Verification development for the `teetimealerts_preferences.py` command-line
client.  The Python source is shallowly embedded: strings are `List Char`,
Python `int` is `Int`/`Nat`, the JSON configuration file is an inductive
`Json` value, console output is not part of the observable state, and the
remote HTTP services are oracles passed in as explicit parameters.
-/

set_option maxHeartbeats 1000000

/-! ## Character and string utilities (models of Python `str` methods, ASCII scope) -/

/-- Double-quote character. -/
def dq : Char := Char.ofNat 34

/-- Backslash character. -/
def bsl : Char := Char.ofNat 92

/-- Opening curly brace character. -/
def lcb : Char := Char.ofNat 123

/-- Closing curly brace character. -/
def rcb : Char := Char.ofNat 125

/-- Newline character. -/
def nlc : Char := Char.ofNat 10

/-- Decimal digit test on the scalar value (same range as Python `str.isdigit`
for ASCII, which is all `int()` accepts in this model; CPython additionally
accepts non-ASCII decimal digits, which this embedding does not model). -/
def isDig (c : Char) : Bool := 48 ≤ c.toNat && c.toNat ≤ 57

/-- ASCII whitespace stripped by Python `str.strip()` (CPython also strips a
few non-ASCII space code points, outside this model's scope). -/
def isPyWs (c : Char) : Bool :=
  c.toNat = 32 || c.toNat = 9 || c.toNat = 10 || c.toNat = 13 || c.toNat = 11 || c.toNat = 12

/-- Model of Python `str.strip()`. -/
def pyStrip (l : List Char) : List Char :=
  ((l.dropWhile isPyWs).reverse.dropWhile isPyWs).reverse

/-- Lower-case a single character (ASCII range, as used for the literal
comparisons in the source). -/
def lowerChar (c : Char) : Char :=
  if 65 ≤ c.toNat && c.toNat ≤ 90 then Char.ofNat (c.toNat + 32) else c

/-- Model of Python `str.lower()` (ASCII scope). -/
def pyLower (l : List Char) : List Char := l.map lowerChar

/-- Convenience: the character list of a string literal. -/
def cl (s : String) : List Char := s.data

/-- Split a character list on a separator character; mirrors Python
`str.split(sep)` for a one-character separator (`"".split(',') = [""]`). -/
def splitOnChar (sep : Char) : List Char → List (List Char)
  | [] => [[]]
  | c :: cs =>
    if c = sep then [] :: splitOnChar sep cs
    else
      match splitOnChar sep cs with
      | [] => [[c]]
      | g :: gs => (c :: g) :: gs

/-- Join groups with a separator character (inverse of `splitOnChar`). -/
def joinSep (sep : Char) : List (List Char) → List Char
  | [] => []
  | [g] => g
  | g :: g2 :: gs => g ++ sep :: joinSep sep (g2 :: gs)

/-- Numeric value of a digit string (most-significant first). -/
def digitsToNat (l : List Char) : Nat :=
  l.foldl (fun a c => a * 10 + (c.toNat - 48)) 0

/-- After the first digit of a Python integer literal: digits with single
underscores allowed between digits (PEP 515), no trailing underscore. -/
def pyDigitsRest : List Char → Bool
  | [] => true
  | '_' :: c :: r => isDig c && pyDigitsRest r
  | '_' :: [] => false
  | c :: r => isDig c && pyDigitsRest r

/-- Numeric value of a digit-and-underscore group. -/
def pyDigitsVal (l : List Char) : Nat :=
  l.foldl (fun a c => if c = '_' then a else a * 10 + (c.toNat - 48)) 0

/-- Unsigned part of Python `int(str)`: nonempty, starts with a digit,
underscores only single and between digits. -/
def pyNat (l : List Char) : Option Nat :=
  match l with
  | [] => none
  | c :: r => if isDig c && pyDigitsRest r then some (pyDigitsVal (c :: r)) else none

/-- Model of Python `int(s)` on an already-stripped string: one optional sign
followed by digits (with optional single interior underscores). -/
def pyInt (l : List Char) : Option Int :=
  match l with
  | '+' :: r => (pyNat r).map Int.ofNat
  | '-' :: r => (pyNat r).map (fun n => -(n : Int))
  | _ => (pyNat l).map Int.ofNat

/-! ## Date validation (`validate_date`, source lines 107-113)

`datetime.strptime(date_string, '%Y-%m-%d')` is modelled from CPython's
`_strptime`: `%Y` matches exactly four digits, `%m` matches
`1[0-2]|0[1-9]|[1-9]` (one or two digits, value 1..12), `%d` matches
`3[01]|[12]\d|0[1-9]|[1-9]` (one or two digits, value 1..31), the whole
string must be consumed, and the resulting calendar date must be
constructible (`datetime` raises `ValueError` on day overflow or year 0). -/

/-- Matches `%Y`: exactly four digits. -/
def matchY (g : List Char) : Bool := g.length = 4 && g.all isDig

/-- Matches `%m`: one or two digits with value between 1 and 12 (exactly the
strings matched by the CPython pattern `1[0-2]|0[1-9]|[1-9]`). -/
def matchM (g : List Char) : Bool :=
  g.all isDig && decide (1 ≤ g.length) && decide (g.length ≤ 2) &&
    decide (1 ≤ digitsToNat g) && decide (digitsToNat g ≤ 12)

/-- Matches `%d`: one or two digits with value between 1 and 31 (exactly the
strings matched by the CPython pattern `3[01]|[12]\d|0[1-9]|[1-9]`). -/
def matchD (g : List Char) : Bool :=
  g.all isDig && decide (1 ≤ g.length) && decide (g.length ≤ 2) &&
    decide (1 ≤ digitsToNat g) && decide (digitsToNat g ≤ 31)

/-- Format-level phase of `strptime(s, '%Y-%m-%d')`: the digit groups contain
no dash, so the regex decomposition coincides with splitting on dashes. -/
def strptimeYMD (l : List Char) : Option (Nat × Nat × Nat) :=
  match splitOnChar '-' l with
  | [ys, ms, ds] =>
    if matchY ys && matchM ms && matchD ds then
      some (digitsToNat ys, digitsToNat ms, digitsToNat ds)
    else none
  | _ => none

/-- Gregorian leap-year test, as in Python's `datetime`. -/
def isLeapYear (y : Nat) : Bool := (y % 4 = 0 && y % 100 ≠ 0) || y % 400 = 0

/-- Days in a month, as in Python's `datetime`. -/
def daysInMonth (y m : Nat) : Nat :=
  if m = 2 then (if isLeapYear y then 29 else 28)
  else if m = 4 || m = 6 || m = 9 || m = 11 then 30
  else 31

/-- Constructibility of `datetime.datetime(y, m, d)` (raises `ValueError`
outside these bounds). -/
def datetimeOk (y m d : Nat) : Bool :=
  decide (1 ≤ y) && decide (y ≤ 9999) && decide (1 ≤ m) && decide (m ≤ 12) &&
    decide (1 ≤ d) && decide (d ≤ daysInMonth y m)

/-- Model of `validate_date` (source lines 107-113): `True` exactly when
`datetime.strptime(s, '%Y-%m-%d')` does not raise. -/
def validate_date (s : String) : Bool :=
  match strptimeYMD s.data with
  | some (y, m, d) => datetimeOk y m d
  | none => false

/-- Modelled from the spec: a string "matching YYYY-MM-DD" read literally as a
four-digit year, a two-digit month and a two-digit day (zero-padded), forming
a constructible calendar date.  Used to compare the spec's wording with the
code's actual `strptime`-based acceptance. -/
def strictYMDFormat (l : List Char) : Bool :=
  match splitOnChar '-' l with
  | [ys, ms, ds] =>
    ys.length = 4 && ms.length = 2 && ds.length = 2 &&
      ys.all isDig && ms.all isDig && ds.all isDig &&
      datetimeOk (digitsToNat ys) (digitsToNat ms) (digitsToNat ds)
  | _ => false

/-- Declarative characterization of the strings `validate_date` accepts:
the string decomposes (on dashes) into a four-digit year group, a one- or
two-digit month group and a one- or two-digit day group denoting a
constructible calendar date. -/
def parsesLenientYMD (l : List Char) : Prop :=
  ∃ ys ms ds,
    l = ys ++ '-' :: (ms ++ '-' :: ds) ∧
    ys.length = 4 ∧ (∀ c ∈ ys, isDig c = true) ∧
    1 ≤ ms.length ∧ ms.length ≤ 2 ∧ (∀ c ∈ ms, isDig c = true) ∧
    1 ≤ ds.length ∧ ds.length ≤ 2 ∧ (∀ c ∈ ds, isDig c = true) ∧
    1 ≤ digitsToNat ys ∧
    1 ≤ digitsToNat ms ∧ digitsToNat ms ≤ 12 ∧
    1 ≤ digitsToNat ds ∧ digitsToNat ds ≤ daysInMonth (digitsToNat ys) (digitsToNat ms)


/-! ## JSON values (scope of `json.dump` / `json.load` as used by this program)

The model covers null, booleans, arbitrary-precision integers, strings,
arrays and string-keyed objects (arrays and objects are mutual inductives so
that every function below is structurally recursive and kernel-computable).
JSON floats (and the non-standard `NaN`/`Infinity` literals CPython accepts)
are outside the model: the program never writes them and no claim depends on
them. -/

mutual

inductive Json where
  | null
  | bool (b : Bool)
  | int (n : Int)
  | str (s : List Char)
  | arr (elems : JList)
  | obj (entries : JEntries)

inductive JList where
  | nil
  | cons (head : Json) (tail : JList)

inductive JEntries where
  | nil
  | cons (key : List Char) (val : Json) (tail : JEntries)

end

mutual

/-- Node count of a JSON value (used as parser fuel bound). -/
def sizeJ : Json → Nat
  | .null => 1
  | .bool _ => 1
  | .int _ => 1
  | .str _ => 1
  | .arr xs => 1 + sizeL xs
  | .obj kvs => 1 + sizeE kvs

/-- Node count of an array's element list. -/
def sizeL : JList → Nat
  | .nil => 0
  | .cons x xs => 1 + sizeJ x + sizeL xs

/-- Node count of an object's entry list. -/
def sizeE : JEntries → Nat
  | .nil => 0
  | .cons _ v kvs => 1 + sizeJ v + sizeE kvs

end

/-- Keys of an object's entry list, in order. -/
def keysOf : JEntries → List (List Char)
  | .nil => []
  | .cons k _ kvs => k :: keysOf kvs

/-- No duplicates among object keys. -/
def noDupKeys : List (List Char) → Bool
  | [] => true
  | k :: ks => !(ks.contains k) && noDupKeys ks

mutual

/-- Well-formedness: every object in the value has pairwise distinct keys
(automatic for anything produced by parsing, since Python dicts collapse
duplicate keys). -/
def wfJson : Json → Bool
  | .null => true
  | .bool _ => true
  | .int _ => true
  | .str _ => true
  | .arr xs => wfList xs
  | .obj kvs => noDupKeys (keysOf kvs) && wfEntries kvs

/-- Well-formedness of an element list. -/
def wfList : JList → Bool
  | .nil => true
  | .cons x xs => wfJson x && wfList xs

/-- Well-formedness of an entry list (values only; key distinctness is
checked at the object node). -/
def wfEntries : JEntries → Bool
  | .nil => true
  | .cons _ v kvs => wfJson v && wfEntries kvs

end

/-- Association lookup, mirroring Python `dict.__getitem__` / `in`. -/
def lookupKey : JEntries → List Char → Option Json
  | .nil, _ => none
  | .cons k1 v1 rest, k => if k = k1 then some v1 else lookupKey rest k

/-- Python `dict` assignment: update an existing key in place, else append. -/
def insertKey : JEntries → List Char → Json → JEntries
  | .nil, k, v => .cons k v .nil
  | .cons k1 v1 rest, k, v =>
    if k = k1 then .cons k1 v rest else .cons k1 v1 (insertKey rest k v)

/-- Build a Python dict from parsed key/value pairs (`dict(pairs)`): last
value wins, position of first occurrence kept. -/
def buildDictGo : JEntries → JEntries → JEntries
  | acc, .nil => acc
  | acc, .cons k v rest => buildDictGo (insertKey acc k v) rest

/-- Dict built from pairs, starting empty. -/
def buildDict (pairs : JEntries) : JEntries := buildDictGo .nil pairs

/-! ## Serializer: `json.dump(value, f, indent=2)` -/

/-- Indentation: `n` spaces. -/
def spaces (n : Nat) : List Char := List.replicate n ' '

/-- Lower-case hexadecimal digit, as produced by CPython's `'\\u%04x'`. -/
def hexDigitChar (n : Nat) : Char :=
  if n < 10 then Char.ofNat (48 + n) else Char.ofNat (87 + n)

/-- Four-digit lower-case hexadecimal rendering of `n < 0x10000`. -/
def hex4 (n : Nat) : List Char :=
  [hexDigitChar (n / 4096 % 16), hexDigitChar (n / 256 % 16),
   hexDigitChar (n / 16 % 16), hexDigitChar (n % 16)]

/-- Escaping of one character by `json.encoder.py_encode_basestring_ascii`
(the default `ensure_ascii=True`): named escapes for quote, backslash and
the common controls, `\uXXXX` for other controls and all non-ASCII, with
UTF-16 surrogate pairs above U+FFFF. -/
def escapeChar (c : Char) : List Char :=
  if c = dq then [bsl, dq]
  else if c = bsl then [bsl, bsl]
  else if c.toNat = 8 then [bsl, 'b']
  else if c.toNat = 12 then [bsl, 'f']
  else if c.toNat = 10 then [bsl, 'n']
  else if c.toNat = 13 then [bsl, 'r']
  else if c.toNat = 9 then [bsl, 't']
  else if c.toNat < 32 ∨ 126 < c.toNat then
    if c.toNat < 65536 then bsl :: 'u' :: hex4 c.toNat
    else
      bsl :: 'u' :: hex4 (55296 + (c.toNat - 65536) / 1024) ++
        bsl :: 'u' :: hex4 (56320 + (c.toNat - 65536) % 1024)
  else [c]

/-- JSON string literal: quoted, escaped body. -/
def escStr (s : List Char) : List Char :=
  dq :: (s.map escapeChar).flatten ++ [dq]

/-- Decimal digits of `n`, most significant first; the fuel argument keeps
the recursion structural (any fuel above `n` gives the digits of `n`). -/
def natToCharsAux : Nat → Nat → List Char
  | 0, _ => []
  | fuel + 1, n =>
    if n < 10 then [Char.ofNat (48 + n)]
    else natToCharsAux fuel (n / 10) ++ [Char.ofNat (48 + n % 10)]

/-- Decimal rendering of a natural number. -/
def natToChars (n : Nat) : List Char := natToCharsAux (n + 1) n

/-- Decimal rendering of a Python integer (`repr` of `int`). -/
def intToChars (i : Int) : List Char :=
  if i < 0 then '-' :: natToChars (-i).toNat else natToChars i.toNat

mutual

/-- Serialization of a JSON value at indentation depth `d`, following
CPython's `json.encoder._make_iterencode` with `indent=2` (separators
`','` and `': '`, newline plus deeper indent before each container item,
newline plus shallower indent before the closing bracket, empty containers
rendered without a newline). -/
def ser (d : Nat) : Json → List Char
  | .null => cl "null"
  | .bool true => cl "true"
  | .bool false => cl "false"
  | .int n => intToChars n
  | .str s => escStr s
  | .arr .nil => ['[', ']']
  | .arr (.cons x xs) =>
    '[' :: nlc :: (spaces (2 * (d + 1)) ++ ser (d + 1) x ++ serElemsTail d xs ++
      nlc :: (spaces (2 * d) ++ [']']))
  | .obj .nil => [lcb, rcb]
  | .obj (.cons k v kvs) =>
    lcb :: nlc :: (spaces (2 * (d + 1)) ++ escStr k ++ ':' :: ' ' :: ser (d + 1) v ++
      serEntriesTail d kvs ++ nlc :: (spaces (2 * d) ++ [rcb]))

/-- Serialization of the remaining array elements, each preceded by the
item separator (comma, newline, indent). -/
def serElemsTail (d : Nat) : JList → List Char
  | .nil => []
  | .cons y ys =>
    ',' :: nlc :: (spaces (2 * (d + 1)) ++ ser (d + 1) y ++ serElemsTail d ys)

/-- Serialization of the remaining object entries, each preceded by the
item separator and followed by `"key": value`. -/
def serEntriesTail (d : Nat) : JEntries → List Char
  | .nil => []
  | .cons k2 v2 rest =>
    ',' :: nlc :: (spaces (2 * (d + 1)) ++ escStr k2 ++ ':' :: ' ' :: ser (d + 1) v2 ++
      serEntriesTail d rest)

end


/-! ## Parser: `json.load` (via `json.loads` / `json.decoder.JSONDecoder`)

Fuel-indexed recursive-descent parser mirroring CPython's pure-Python
scanner.  Model boundaries (documented deviations, none reachable from the
serializer's output): float literals and `NaN`/`Infinity` are rejected, and
`\uXXXX` escapes denoting lone UTF-16 surrogates are rejected (CPython keeps
lone surrogates, which Lean's `Char` cannot represent). -/

/-- JSON whitespace (`' \t\n\r'`). -/
def wsB (c : Char) : Bool := c = ' ' || c = '\t' || c = '\n' || c = '\r'

/-- Skip JSON whitespace. -/
def skipWs (l : List Char) : List Char := l.dropWhile wsB

/-- Consume an expected literal character sequence. -/
def dropLit : List Char → List Char → Option (List Char)
  | [], l => some l
  | _ :: _, [] => none
  | p :: ps, c :: cs => if c = p then dropLit ps cs else none

/-- Hexadecimal digit value (both cases, as in CPython's scanner). -/
def hexVal (c : Char) : Option Nat :=
  if 48 ≤ c.toNat ∧ c.toNat ≤ 57 then some (c.toNat - 48)
  else if 97 ≤ c.toNat ∧ c.toNat ≤ 102 then some (c.toNat - 87)
  else if 65 ≤ c.toNat ∧ c.toNat ≤ 70 then some (c.toNat - 55)
  else none

/-- Value of four hexadecimal digits. -/
def hex4Val (a b c d : Char) : Option Nat :=
  match hexVal a, hexVal b, hexVal c, hexVal d with
  | some x, some y, some z, some w => some (((x * 16 + y) * 16 + z) * 16 + w)
  | _, _, _, _ => none

/-- Single-character escapes accepted by the scanner (`json.decoder.BACKSLASH`). -/
def escMap (e : Char) : Option Char :=
  if e = dq then some dq
  else if e = bsl then some bsl
  else if e = '/' then some '/'
  else if e = 'b' then some (Char.ofNat 8)
  else if e = 'f' then some (Char.ofNat 12)
  else if e = 'n' then some nlc
  else if e = 'r' then some (Char.ofNat 13)
  else if e = 't' then some '\t'
  else none

mutual

/-- String scanner (`json.decoder.py_scanstring`, strict mode): input starts
just after the opening quote; returns the decoded characters and the rest
after the closing quote.  Raw control characters are rejected; surrogate
pairs in `\uXXXX` escapes are recombined.  (Split into a mutual block so
each body stays small.) -/
def scanStr : List Char → Option (List Char × List Char)
  | [] => none
  | c :: rest =>
    if c = dq then some ([], rest)
    else if c = bsl then scanEscape rest
    else if c.toNat < 32 then none
    else
      match scanStr rest with
      | some (s, r) => some (c :: s, r)
      | none => none

/-- After a backslash: named escape or `\u`. -/
def scanEscape : List Char → Option (List Char × List Char)
  | [] => none
  | e :: rest2 =>
    if e = 'u' then scanUni rest2
    else
      match escMap e with
      | some c2 =>
        match scanStr rest2 with
        | some (s, r) => some (c2 :: s, r)
        | none => none
      | none => none

/-- After `\u`: four hex digits; a high surrogate must be followed by a low
one (CPython would keep a lone surrogate, which `Char` cannot hold). -/
def scanUni : List Char → Option (List Char × List Char)
  | h1 :: h2 :: h3 :: h4 :: rest3 =>
    match hex4Val h1 h2 h3 h4 with
    | none => none
    | some code =>
      if 55296 ≤ code ∧ code ≤ 56319 then scanUniPair code rest3
      else if 56320 ≤ code ∧ code ≤ 57343 then none
      else
        match scanStr rest3 with
        | some (s, r) => some (Char.ofNat code :: s, r)
        | none => none
  | _ => none

/-- After a high surrogate: expect `\u` and a low surrogate, recombine. -/
def scanUniPair (hi : Nat) : List Char → Option (List Char × List Char)
  | b1 :: u1 :: g1 :: g2 :: g3 :: g4 :: rest4 =>
    if b1 = bsl ∧ u1 = 'u' then
      match hex4Val g1 g2 g3 g4 with
      | some lo =>
        if 56320 ≤ lo ∧ lo ≤ 57343 then
          match scanStr rest4 with
          | some (s, r) =>
            some (Char.ofNat (65536 + (hi - 55296) * 1024 + (lo - 56320)) :: s, r)
          | none => none
        else none
      | none => none
    else none
  | _ => none

end

/-- Maximal-munch digit accumulator for number parsing. -/
def munch (acc : Nat) : List Char → Nat × List Char
  | [] => (acc, [])
  | c :: rest =>
    if isDig c then munch (acc * 10 + (c.toNat - 48)) rest else (acc, c :: rest)

/-- Integer-part scan per CPython's `NUMBER_RE`: `0` or a nonzero digit
followed by digits (a leading `0` is not followed by more digits). -/
def parseNatTok : List Char → Option (Nat × List Char)
  | [] => none
  | c :: rest =>
    if c = '0' then some (0, rest)
    else if isDig c then some (munch (c.toNat - 48) rest)
    else none

/-- Whether the next character would extend the number into a float
(`.`, `e`, `E`); CPython would then parse a float, which this model does
not represent. -/
def floatNext : List Char → Bool
  | [] => false
  | t0 :: _ => t0 = '.' || t0 = 'e' || t0 = 'E'

/-- Signed integer scan. -/
def parseIntTok : List Char → Option (Int × List Char)
  | '-' :: rest => (parseNatTok rest).map (fun p => (-(p.1 : Int), p.2))
  | l => (parseNatTok l).map (fun p => ((p.1 : Int), p.2))

mutual

/-- Parse one JSON value (no leading whitespace).  Fuel decreases once per
value and once per container item, so any fuel of at least `sizeJ` of the
encoded value suffices. -/
def parseVal : Nat → List Char → Option (Json × List Char)
  | 0, _ => none
  | f + 1, l =>
    match l with
    | [] => none
    | c :: rest =>
      if c = 'n' then
        match dropLit ['u', 'l', 'l'] rest with
        | some t => some (.null, t)
        | none => none
      else if c = 't' then
        match dropLit ['r', 'u', 'e'] rest with
        | some t => some (.bool true, t)
        | none => none
      else if c = 'f' then
        match dropLit ['a', 'l', 's', 'e'] rest with
        | some t => some (.bool false, t)
        | none => none
      else if c = dq then
        match scanStr rest with
        | some (s, r) => some (.str s, r)
        | none => none
      else if c = '[' then
        match skipWs rest with
        | [] => none
        | c2 :: r2 =>
          if c2 = ']' then some (.arr .nil, r2)
          else
            match parseArrLoop f (skipWs rest) with
            | some (vs, r) => some (.arr vs, r)
            | none => none
      else if c = lcb then
        match skipWs rest with
        | [] => none
        | c2 :: r2 =>
          if c2 = rcb then some (.obj .nil, r2)
          else
            match parseObjLoop f (skipWs rest) with
            | some (kvs, r) => some (.obj (buildDict kvs), r)
            | none => none
      else if c = '-' ∨ isDig c = true then
        match parseIntTok (c :: rest) with
        | some (n, t) => if floatNext t then none else some (.int n, t)
        | none => none
      else none

/-- Parse the elements of a non-empty array: value, then `,` more or `]`. -/
def parseArrLoop : Nat → List Char → Option (JList × List Char)
  | 0, _ => none
  | f + 1, l =>
    match parseVal f l with
    | none => none
    | some (v, r1) =>
      match skipWs r1 with
      | [] => none
      | c :: r2 =>
        if c = ',' then
          match parseArrLoop f (skipWs r2) with
          | some (vs, r3) => some (.cons v vs, r3)
          | none => none
        else if c = ']' then some (.cons v .nil, r2)
        else none

/-- Parse the entries of a non-empty object: `"key"`, `:`, value, then `,`
more or the closing brace. -/
def parseObjLoop : Nat → List Char → Option (JEntries × List Char)
  | 0, _ => none
  | f + 1, l =>
    match l with
    | [] => none
    | c :: r1 =>
      if c = dq then
        match scanStr r1 with
        | none => none
        | some (k, r2) =>
          match skipWs r2 with
          | [] => none
          | c2 :: r3 =>
            if c2 = ':' then
              match parseVal f (skipWs r3) with
              | none => none
              | some (v, r4) =>
                match skipWs r4 with
                | [] => none
                | c3 :: r5 =>
                  if c3 = ',' then
                    match parseObjLoop f (skipWs r5) with
                    | some (kvs, r6) => some (.cons k v kvs, r6)
                    | none => none
                  else if c3 = rcb then some (.cons k v .nil, r5)
                  else none
            else none
      else none

end

/-- Top level of `json.loads`: skip whitespace, parse one value, require
only whitespace after it.  The fuel `length + 1` dominates the node count
of any value the input can encode. -/
def parseTop (l : List Char) : Option Json :=
  match parseVal (l.length + 1) (skipWs l) with
  | some (v, rest) => if skipWs rest = [] then some v else none
  | none => none


/-! ## Configuration store (`load_config` / `save_config`, source lines 115-136) -/

/-- Observable states of the config file (`~/.teetimealerts/config.json`).
`unreadable` covers an existing file whose `open`/read raises `IOError`.
Byte-level encoding errors are below this model's string-level scope. -/
inductive FileState where
  | missing
  | unreadable
  | nonUtf8
  | content (s : List Char)

/-- Model of `load_config` (source lines 121-130): parse the file if it
exists, returning `some {}` when it is missing, when opening it raises
`IOError`, or when `json.load` raises `JSONDecodeError`.  A present file
whose bytes do not decode as UTF-8 (`FileState.nonUtf8`) makes the read
inside `json.load` raise `UnicodeDecodeError`, which the handler
`except (json.JSONDecodeError, IOError)` does not catch (it is a
`ValueError` but neither of those), so the exception propagates to the
caller: that path is `none`. -/
def load_config (fs : FileState) : Option Json :=
  match fs with
  | .missing => some (.obj .nil)
  | .unreadable => some (.obj .nil)
  | .nonUtf8 => none
  | .content s =>
    match parseTop s with
    | some v => some v
    | none => some (.obj .nil)

/-- Model of `save_config` (source lines 132-136): overwrite the file with
`json.dump(config, f, indent=2)`. -/
def save_config (v : Json) : FileState := .content (ser 0 v)

/-! ## Course directory client (`search_courses_by_zip`, source lines 138-171) -/

/-- Outcome of one HTTP exchange, as seen by the caller of `requests`:
either a transport-level exception, or a response with a status code and a
body (`none` when `response.json()` cannot decode it). -/
inductive HttpResult where
  | transportError
  | response (status : Nat) (body : Option Json)

/-- Dict `.get(key, default)`. -/
def getD (kvs : JEntries) (k : List Char) (dflt : Json) : Json :=
  match lookupKey kvs k with
  | some v => v
  | none => dflt

/-- Model of `search_courses_by_zip` (source lines 138-171) given the
exchange outcome `h` for the posted query.  `raise_for_status` raises
exactly for statuses in `[400, 600)`; those and transport errors (and an
undecodable body, whose `requests.exceptions.JSONDecodeError` is also a
`RequestException`) are caught and yield `[]`.  A decoded non-object body
reaches `data.get` and raises an uncaught `AttributeError` (`none`). -/
def search_courses_by_zip (_zipcode : List Char) (_radius : Nat) (h : HttpResult) : Option Json :=
  match h with
  | .transportError => some (.arr .nil)
  | .response status body =>
    if 400 ≤ status ∧ status < 600 then some (.arr .nil)
    else
      match body with
      | none => some (.arr .nil)
      | some j =>
        match j with
        | .obj kvs => some (getD kvs (cl "courses") (.arr .nil))
        | _ => none

/-! ## Preferences payload (`update_golfer_preferences`, source lines 50-105) -/

/-- The request body built by `update_golfer_preferences` (source lines
64-76).  The source receives the hours as strings and converts with
`int(...)`; since `main` produces them via `str(...)` from validated
integers, the composition is the identity and the hours are passed here as
integers. -/
def preferencePayload (startT endT : Int) (date players : List Char) (courses : Json) : Json :=
  .obj (.cons (cl "uuid") (.str (cl "thouv0sZQpfu6vUMzET6Hu696yx1"))
    (.cons (cl "preferences") (.obj
      (.cons (cl "courses") courses
      (.cons (cl "start_times") (.arr (.cons (.int startT) .nil))
      (.cons (cl "end_times") (.arr (.cons (.int endT) .nil))
      (.cons (cl "players") (.arr (.cons (.str players) .nil))
      (.cons (cl "dates") (.arr (.cons (.str date) .nil))
      (.cons (cl "preferences_id") (.int 56865685699492)
      (.cons (cl "alerts_sent") (.int 0) .nil))))))))
    (.cons (cl "golfer_ignore_in_analytics") (.int 2241) .nil)))

/-- Modelled from the spec: the payload shape as enumerated by the claim —
a hardcoded account identifier, the course list, single-element start/end
time lists, a single-element player list, a single-element date list, and
exactly two hardcoded numeric fields (a preferences identifier `pid` inside
the preferences object and an analytics-exclusion flag `flag` beside it).
The claim's enumeration has no alerts-sent counter. -/
def claimedPayload (pid flag : Int) (startT endT : Int) (date players : List Char) (courses : Json) : Json :=
  .obj (.cons (cl "uuid") (.str (cl "thouv0sZQpfu6vUMzET6Hu696yx1"))
    (.cons (cl "preferences") (.obj
      (.cons (cl "courses") courses
      (.cons (cl "start_times") (.arr (.cons (.int startT) .nil))
      (.cons (cl "end_times") (.arr (.cons (.int endT) .nil))
      (.cons (cl "players") (.arr (.cons (.str players) .nil))
      (.cons (cl "dates") (.arr (.cons (.str date) .nil))
      (.cons (cl "preferences_id") (.int pid) .nil)))))))
    (.cons (cl "golfer_ignore_in_analytics") (.int flag) .nil)))

/-! ## Interactive course selector (`select_courses`, source lines 173-210) -/

/-- A course record from the search response.  `course_distance` is a float
used only for display and is not modelled; the selector reads only
`course_name` (display fields kept for shape). -/
structure Course where
  course_name : List Char
  course_fullname : List Char
  course_city : List Char
deriving DecidableEq

/-- `[course['course_name'] for course in courses]`. -/
def allCourseNames (cs : List Course) : List (List Char) := cs.map Course.course_name

/-- Parse every comma-separated group as a Python int and subtract one;
any failure is the `ValueError` of the list comprehension. -/
def parseIdxGroups : List (List Char) → Option (List Int)
  | [] => some []
  | g :: gs =>
    match pyInt (pyStrip g) with
    | some n => (parseIdxGroups gs).map (fun t => (n - 1) :: t)
    | none => none

/-- `[int(x.strip()) - 1 for x in selection.split(',')]`. -/
def parseIndices (l : List Char) : Option (List Int) :=
  parseIdxGroups (splitOnChar ',' l)

/-- The body of the selector's in-range filter: `if 0 <= idx < len(courses):
selected.append(courses[idx]['course_name'])`. -/
def pickCourse (cs : List Course) (i : Int) : Option (List Char) :=
  if 0 ≤ i then (cs.get? i.toNat).map Course.course_name else none

/-- One round of `select_courses` on a given line of input: `some` is a
return, `none` is the invalid-selection message followed by the recursive
re-prompt. -/
def selectStep (cs : List Course) (raw : List Char) : Option (List (List Char)) :=
  let sel := pyLower (pyStrip raw)
  if sel = cl "all" then some (allCourseNames cs)
  else
    match parseIndices sel with
    | some idxs => some (idxs.filterMap (pickCourse cs))
    | none => none

/-- Model of `select_courses` (source lines 173-210) consuming a stream of
input lines; returns the selection and the unconsumed input, or `none` when
the stream is exhausted while the program is still re-prompting (the real
program would block on `input()`). -/
def select_courses (cs : List Course) : List (List Char) → Option (List (List Char) × List (List Char))
  | [] => if cs.isEmpty then some ([], []) else none
  | raw :: rest =>
    if cs.isEmpty then some ([], raw :: rest)
    else
      match selectStep cs raw with
      | some r => some (r, rest)
      | none => select_courses cs rest

/-! ## Course resolution (`get_or_set_default_courses`, source lines 212-258) -/

/-- Externally visible side effects of a run. -/
inductive Effect where
  | searchedZip (zip : List Char)
  | wroteConfig
  | authPost
  | prefsPut
deriving DecidableEq

/-- How a run of `get_or_set_default_courses` (or `main`) ends. -/
inductive RunOutcome where
  | ok (courses : Json)
  | exit1
  | pyerror
  | blocked

/-- Result of a run: outcome, final config-file state, effect trace, and
unconsumed input lines. -/
structure RunRes where
  out : RunOutcome
  fs : FileState
  trace : List Effect
  rem : List (List Char)

/-- Python truthiness of a JSON value. -/
def truthy : Json → Bool
  | .null => false
  | .bool b => b
  | .int n => n ≠ 0
  | .str s => !s.isEmpty
  | .arr xs => match xs with | .nil => false | .cons _ _ => true
  | .obj kvs => match kvs with | .nil => false | .cons _ _ _ => true

/-- The `default_courses` config key. -/
def dcKey : List Char := cl "default_courses"

/-- The `zipcode` config key. -/
def zipKey : List Char := cl "zipcode"

/-- Build a JSON array of strings (a Python list of `course_name` values). -/
def jStrs : List (List Char) → JList
  | [] => .nil
  | s :: rest => .cons (.str s) (jStrs rest)

/-- The set-up path of `get_or_set_default_courses` (source lines 233-258):
prompt for a ZIP code, search (the extracted course list is the oracle
`searchRes`; `search_courses_by_zip` models the raw exchange), select, then
update the loaded config dict and save it. -/
def setupPhase (kvs : JEntries) (fs : FileState) (inputs : List (List Char))
    (searchRes : List Course) : RunRes :=
  match inputs with
  | [] => ⟨.blocked, fs, [], []⟩
  | z :: rest =>
    let zip := pyStrip z
    if zip.isEmpty then ⟨.exit1, fs, [], rest⟩
    else if searchRes.isEmpty then ⟨.exit1, fs, [.searchedZip zip], rest⟩
    else
      match select_courses searchRes rest with
      | none => ⟨.blocked, fs, [.searchedZip zip], []⟩
      | some (selected, rest2) =>
        if selected.isEmpty then ⟨.exit1, fs, [.searchedZip zip], rest2⟩
        else
          ⟨.ok (.arr (jStrs selected)),
            save_config (.obj (insertKey (insertKey kvs dcKey (.arr (jStrs selected))) zipKey (.str zip))),
            [.searchedZip zip, .wroteConfig], rest2⟩

/-- Model of `get_or_set_default_courses` (source lines 212-258).  The two
accepting branches of the source (`y`/`yes`/empty, and the `elif` catching
everything except `reset`/`n`/`no`) collapse to: return the saved value
unless the stripped, lowered reply is `n`, `no` or `reset`.  A loaded
config that is not a dict always ends in an uncaught `TypeError` before
any return or save (on the membership test, the indexing, or the key
assignment); the model reports `pyerror` at once, as it does when
`load_config` itself raises (`none`, the non-UTF-8 file). -/
def get_or_set_default_courses (fs : FileState) (inputs : List (List Char))
    (searchRes : List Course) : RunRes :=
  match load_config fs with
  | none => ⟨.pyerror, fs, [], inputs⟩
  | some (.obj kvs) =>
    match lookupKey kvs dcKey with
    | some dc =>
      if truthy dc then
        match inputs with
        | [] => ⟨.blocked, fs, [], []⟩
        | r :: rest =>
          let resp := pyLower (pyStrip r)
          if resp = cl "n" ∨ resp = cl "no" ∨ resp = cl "reset" then
            setupPhase kvs fs rest searchRes
          else ⟨.ok dc, fs, [], rest⟩
      else setupPhase kvs fs inputs searchRes
    | none => setupPhase kvs fs inputs searchRes
  | some _ => ⟨.pyerror, fs, [], inputs⟩

/-! ## Command entry point (`main`, source lines 260-341) -/

/-- Result of the argument-validation `try` block. -/
inductive ArgCheck where
  | ok
  | err (msg : String)

/-- Model of the validation in `main` (source lines 293-305), in source
order: start-time range, end-time range, strict order, player range. -/
def validateArgs (s e p : Int) : ArgCheck :=
  if ¬ (0 ≤ s ∧ s ≤ 23) then .err "Start time must be between 0 and 23"
  else if ¬ (0 ≤ e ∧ e ≤ 23) then .err "End time must be between 0 and 23"
  else if s ≥ e then .err "Start time must be before end time"
  else if ¬ (1 ≤ p ∧ p ≤ 4) then .err "Number of players must be between 1 and 4"
  else .ok

/-- Model of `authenticate` (source lines 11-48) given the exchange
outcome: transport errors, statuses in `[400, 600)` and an undecodable body
all reach `sys.exit(1)` inside the function (`none`); otherwise the decoded
body is returned. -/
def authenticate (_email _password : List Char) (h : HttpResult) : Option Json :=
  match h with
  | .transportError => none
  | .response st body => if 400 ≤ st ∧ st < 600 then none else body

/-- Model of `main` (source lines 260-341): validate arguments, validate the
date, check credentials, resolve courses, authenticate, submit preferences.
The HTTP exchanges are oracles; effects record which network calls and
config writes happened, in order. -/
def mainModel (s e p : Int) (date : String) (creds : Option (List Char × List Char))
    (fs : FileState) (inputs : List (List Char)) (searchRes : List Course)
    (authR prefsR : HttpResult) : RunOutcome × FileState × List Effect :=
  match validateArgs s e p with
  | .err _ => (.exit1, fs, [])
  | .ok =>
    if validate_date date = false then (.exit1, fs, [])
    else
      match creds with
      | none => (.exit1, fs, [])
      | some cred =>
        let r := get_or_set_default_courses fs inputs searchRes
        match r.out with
        | .ok courses =>
          if truthy courses = false then (.exit1, r.fs, r.trace)
          else
            match authenticate cred.1 cred.2 authR with
            | none => (.exit1, r.fs, r.trace ++ [.authPost])
            | some auth =>
              match auth with
              | .obj akvs =>
                match lookupKey akvs (cl "idToken") with
                | some tok =>
                  if truthy tok then
                    match prefsR with
                    | .transportError => (.exit1, r.fs, r.trace ++ [.authPost, .prefsPut])
                    | .response st _ =>
                      if 400 ≤ st ∧ st < 600 then (.exit1, r.fs, r.trace ++ [.authPost, .prefsPut])
                      else (.ok courses, r.fs, r.trace ++ [.authPost, .prefsPut])
                  else (.exit1, r.fs, r.trace ++ [.authPost])
                | none => (.exit1, r.fs, r.trace ++ [.authPost])
              | _ => (.pyerror, r.fs, r.trace ++ [.authPost])
        | out => (out, r.fs, r.trace)


/-- Three concrete course records used to exercise the selector. -/
def demoCourses : List Course :=
  [⟨cl "alpha", cl "Alpha Golf Course", cl "Springfield"⟩,
   ⟨cl "beta", cl "Beta Golf Course", cl "Shelbyville"⟩,
   ⟨cl "gamma", cl "Gamma Golf Course", cl "Ogdenville"⟩]

/-- A list whose head (if any) cannot continue a number token. -/
def numStop (l : List Char) : Prop :=
  match l with
  | [] => True
  | c :: _ => isDig c = false ∧ c ≠ '.' ∧ c ≠ 'e' ∧ c ≠ 'E'

/-- What may legally follow a serialized value inside the round-trip
argument: nothing, an item separator, or the newline before a closing
bracket. -/
def tailOk (l : List Char) : Prop :=
  l = [] ∨ (∃ r, l = ',' :: r) ∨ (∃ r, l = nlc :: r)

/-- Concatenation of entry lists. -/
def appE : JEntries → JEntries → JEntries
  | .nil, b => b
  | .cons k v t, b => .cons k v (appE t b)

/-- Round-trip statement for one JSON value: its serialization at any
depth, followed by a legal tail, parses back to it with any sufficient
fuel. -/
def RTJ (v : Json) : Prop :=
  ∀ f d rest, wfJson v = true → sizeJ v ≤ f → tailOk rest →
    parseVal f (ser d v ++ rest) = some (v, rest)

/-- Round-trip statement for an array tail: the element loop, started at a
leading element `x` followed by the serialized tail `xs` and the closing
bracket, returns `x :: xs`. -/
def RTL (xs : JList) : Prop :=
  ∀ x, RTJ x → ∀ f d rest, wfJson x = true → wfList xs = true →
    1 + sizeJ x + sizeL xs ≤ f → tailOk rest →
    parseArrLoop f
        (ser (d + 1) x ++ (serElemsTail d xs ++ nlc :: (spaces (2 * d) ++ (']' :: rest)))) =
      some (.cons x xs, rest)

/-- Round-trip statement for an object tail, analogous to `RTL`. -/
def RTE (kvs : JEntries) : Prop :=
  ∀ k v, RTJ v → ∀ f d rest, wfJson v = true → wfEntries kvs = true →
    1 + sizeJ v + sizeE kvs ≤ f → tailOk rest →
    parseObjLoop f
        (escStr k ++ (':' :: ' ' :: (ser (d + 1) v ++
          (serEntriesTail d kvs ++ nlc :: (spaces (2 * d) ++ rcb :: rest))))) =
      some (.cons k v kvs, rest)

/-- The config mapping named by the round-trip claim:
`{"default_courses": ["a", "b"], "zipcode": "90210"}`. -/
def specConfig : Json :=
  .obj (.cons (cl "default_courses")
      (.arr (.cons (.str (cl "a")) (.cons (.str (cl "b")) .nil)))
    (.cons (cl "zipcode") (.str (cl "90210")) .nil))

/-- A one-course saved configuration used to witness the accepting runs. -/
def savedConfigDemo : Json :=
  .obj (.cons dcKey (.arr (.cons (.str (cl "a")) .nil)) .nil)

/-! ### Basic lemmas about splitting -/

theorem splitOnChar_ne_nil (sep : Char) (l : List Char) : splitOnChar sep l ≠ [] := by
  induction l with
  | nil => simp [splitOnChar]
  | cons c cs ih =>
    simp only [splitOnChar]
    split
    · simp
    · cases h : splitOnChar sep cs with
      | nil => exact absurd h ih
      | cons g gs => simp

theorem splitOnChar_no_sep (sep : Char) (l : List Char) :
    ∀ g ∈ splitOnChar sep l, sep ∉ g := by
  induction l with
  | nil =>
    intro g hg
    simp [splitOnChar] at hg
    simp [hg]
  | cons c cs ih =>
    intro g hg
    simp only [splitOnChar] at hg
    by_cases hc : c = sep
    · simp [hc] at hg
      rcases hg with h | h
      · simp [h]
      · exact ih g h
    · simp [hc] at hg
      cases h : splitOnChar sep cs with
      | nil => exact absurd h (splitOnChar_ne_nil sep cs)
      | cons g0 gs =>
        rw [h] at hg
        simp at hg
        rcases hg with h1 | h1
        · subst h1
          intro hmem
          simp at hmem
          rcases hmem with h2 | h2
          · exact hc h2.symm
          · exact ih g0 (by simp [h]) h2
        · exact ih g (by simp [h, h1])

theorem joinSep_splitOnChar (sep : Char) (l : List Char) :
    joinSep sep (splitOnChar sep l) = l := by
  induction l with
  | nil => simp [splitOnChar, joinSep]
  | cons c cs ih =>
    simp only [splitOnChar]
    by_cases hc : c = sep
    · simp only [hc, if_pos rfl]
      cases h : splitOnChar sep cs with
      | nil => exact absurd h (splitOnChar_ne_nil sep cs)
      | cons g gs =>
        rw [h] at ih
        simp [joinSep, ih]
    · simp only [if_neg hc]
      cases h : splitOnChar sep cs with
      | nil => exact absurd h (splitOnChar_ne_nil sep cs)
      | cons g gs =>
        rw [h] at ih
        cases gs with
        | nil => simp [joinSep] at ih ⊢; simp [ih]
        | cons g2 gs2 => simp [joinSep] at ih ⊢; simp [ih]

theorem splitOnChar_append_sep (sep : Char) (a rest : List Char) (ha : sep ∉ a) :
    splitOnChar sep (a ++ sep :: rest) = a :: splitOnChar sep rest := by
  induction a with
  | nil => simp [splitOnChar]
  | cons c cs ih =>
    have hc : c ≠ sep := fun h => ha (by simp [h])
    have hcs : sep ∉ cs := fun h => ha (by simp [h])
    simp only [List.cons_append, splitOnChar, if_neg hc]
    rw [show cs.append (sep :: rest) = cs ++ sep :: rest from rfl, ih hcs]

theorem splitOnChar_of_no_sep (sep : Char) (a : List Char) (ha : sep ∉ a) :
    splitOnChar sep a = [a] := by
  induction a with
  | nil => simp [splitOnChar]
  | cons c cs ih =>
    have hc : c ≠ sep := fun h => ha (by simp [h])
    have hcs : sep ∉ cs := fun h => ha (by simp [h])
    simp [splitOnChar, if_neg hc, ih hcs]

/-- Characterization of a three-way split. -/
theorem splitOnChar_eq_three (sep : Char) (l a b c : List Char) :
    splitOnChar sep l = [a, b, c] ↔
      l = a ++ sep :: (b ++ sep :: c) ∧ sep ∉ a ∧ sep ∉ b ∧ sep ∉ c := by
  constructor
  · intro h
    have hmem := splitOnChar_no_sep sep l
    rw [h] at hmem
    have hj := joinSep_splitOnChar sep l
    rw [h] at hj
    refine ⟨?_, hmem a (by simp), hmem b (by simp), hmem c (by simp)⟩
    simpa [joinSep] using hj.symm
  · rintro ⟨rfl, ha, hb, hc⟩
    rw [splitOnChar_append_sep sep a _ ha, splitOnChar_append_sep sep b _ hb,
      splitOnChar_of_no_sep sep c hc]

/-! ### Digit-string value bounds -/

theorem digitsToNat_aux_lt (g : List Char) : ∀ acc : Nat, (∀ c ∈ g, isDig c = true) →
    g.foldl (fun a c => a * 10 + (c.toNat - 48)) acc < (acc + 1) * 10 ^ g.length := by
  induction g with
  | nil => intro acc _; simp only [List.foldl_nil, List.length_nil, pow_zero, mul_one]; omega
  | cons c r ih =>
    intro acc hdig
    have hc : isDig c = true := hdig c (by simp)
    have hv : c.toNat - 48 ≤ 9 := by
      simp [isDig] at hc; omega
    have h1 := ih (acc * 10 + (c.toNat - 48)) (fun x hx => hdig x (by simp [hx]))
    have h2 : (acc * 10 + (c.toNat - 48) + 1) * 10 ^ r.length ≤ (acc + 1) * 10 ^ (r.length + 1) := by
      have : acc * 10 + (c.toNat - 48) + 1 ≤ (acc + 1) * 10 := by omega
      calc (acc * 10 + (c.toNat - 48) + 1) * 10 ^ r.length
          ≤ ((acc + 1) * 10) * 10 ^ r.length := Nat.mul_le_mul_right _ this
        _ = (acc + 1) * 10 ^ (r.length + 1) := by ring
    simpa [List.foldl_cons, List.length_cons] using Nat.lt_of_lt_of_le h1 h2

theorem digitsToNat_lt_pow (g : List Char) (h : ∀ c ∈ g, isDig c = true) :
    digitsToNat g < 10 ^ g.length := by
  simpa [digitsToNat] using digitsToNat_aux_lt g 0 h

theorem dash_not_dig {c : Char} (h : isDig c = true) : c ≠ '-' := by
  intro hc
  subst hc
  simp [isDig] at h


/-! ### Characterization of `validate_date` -/

theorem strptimeYMD_split_three {l g1 g2 g3 : List Char}
    (h : splitOnChar '-' l = [g1, g2, g3]) :
    strptimeYMD l =
      (if matchY g1 && matchM g2 && matchD g3 then
        some (digitsToNat g1, digitsToNat g2, digitsToNat g3) else none) := by
  unfold strptimeYMD
  rw [h]

theorem validate_date_iff_lenient (s : String) :
    validate_date s = true ↔ parsesLenientYMD s.data := by
  constructor
  · intro h
    unfold validate_date at h
    cases hspl : splitOnChar '-' s.data with
    | nil => rw [strptimeYMD] at h; rw [hspl] at h; simp at h
    | cons g1 t1 =>
      cases t1 with
      | nil => rw [strptimeYMD] at h; rw [hspl] at h; simp at h
      | cons g2 t2 =>
        cases t2 with
        | nil => rw [strptimeYMD] at h; rw [hspl] at h; simp at h
        | cons g3 t3 =>
          cases t3 with
          | cons g4 t4 => rw [strptimeYMD] at h; rw [hspl] at h; simp at h
          | nil =>
            rw [strptimeYMD_split_three hspl] at h
            by_cases hm : (matchY g1 && matchM g2 && matchD g3) = true
            · rw [if_pos hm] at h
              simp only [] at h
              have hdec := (splitOnChar_eq_three '-' s.data g1 g2 g3).1 hspl
              obtain ⟨hl, h1, h2, h3⟩ := hdec
              simp only [matchY, matchM, matchD, Bool.and_eq_true, decide_eq_true_eq,
                List.all_eq_true, beq_iff_eq] at hm
              obtain ⟨⟨hY, hM⟩, hD⟩ := hm
              simp only [datetimeOk, Bool.and_eq_true, decide_eq_true_eq] at h
              refine ⟨g1, g2, g3, hl, ?_, ?_, ?_, ?_, ?_, ?_, ?_, ?_, ?_, ?_, ?_, ?_, ?_⟩
              all_goals first
                | exact hY.1
                | exact hY.2
                | tauto
            · rw [if_neg hm] at h
              simp at h
  · rintro ⟨ys, ms, ds, hl, hylen, hydig, hmlen1, hmlen2, hmdig, hdlen1, hdlen2, hddig,
      hy1, hm1, hm12, hd1, hdm⟩
    have hy9999 : digitsToNat ys ≤ 9999 := by
      have := digitsToNat_lt_pow ys hydig
      rw [hylen] at this
      omega
    have hna : '-' ∉ ys := fun hc => absurd (hydig _ hc) (by simp [isDig])
    have hnb : '-' ∉ ms := fun hc => absurd (hmdig _ hc) (by simp [isDig])
    have hnc : '-' ∉ ds := fun hc => absurd (hddig _ hc) (by simp [isDig])
    have hspl : splitOnChar '-' s.data = [ys, ms, ds] :=
      (splitOnChar_eq_three '-' s.data ys ms ds).2 ⟨hl, hna, hnb, hnc⟩
    have hmY : matchY ys = true := by
      simp [matchY, List.all_eq_true, hylen]
      exact hydig
    have hmM : matchM ms = true := by
      simp [matchM, List.all_eq_true, hmlen1, hmlen2, hm1, hm12]
      exact hmdig
    have hmD : matchD ds = true := by
      have : digitsToNat ds ≤ 31 := by
        have hd31 : daysInMonth (digitsToNat ys) (digitsToNat ms) ≤ 31 := by
          unfold daysInMonth
          split
          · split <;> omega
          · split <;> omega
        omega
      simp [matchD, List.all_eq_true, hdlen1, hdlen2, hd1, this]
      exact hddig
    unfold validate_date
    rw [strptimeYMD_split_three hspl, hmY, hmM, hmD]
    simp only [Bool.and_self, if_pos]
    simp [datetimeOk, hy1, hy9999, hm1, hm12, hd1, hdm]

/-! ### Selector lemmas -/

theorem select_courses_reprompt (cs : List Course) (raw : List Char) (rest : List (List Char))
    (hne : cs ≠ []) (hall : pyLower (pyStrip raw) ≠ cl "all")
    (hp : parseIndices (pyLower (pyStrip raw)) = none) :
    select_courses cs (raw :: rest) = select_courses cs rest := by
  have hemp : cs.isEmpty = false := by
    cases cs with
    | nil => exact absurd rfl hne
    | cons a l => rfl
  simp [select_courses, hemp, selectStep, hall, hp]

theorem select_courses_returns (cs : List Course) (raw : List Char) (rest : List (List Char))
    (hne : cs ≠ []) (hall : pyLower (pyStrip raw) ≠ cl "all")
    (idxs : List Int) (hp : parseIndices (pyLower (pyStrip raw)) = some idxs) :
    select_courses cs (raw :: rest) = some (idxs.filterMap (pickCourse cs), rest) := by
  have hemp : cs.isEmpty = false := by
    cases cs with
    | nil => exact absurd rfl hne
    | cons a l => rfl
  simp [select_courses, hemp, selectStep, hall, hp]

/-! ### Validation lemmas -/

theorem validateArgs_ok_iff (s e p : Int) (hp : 1 ≤ p ∧ p ≤ 4) :
    validateArgs s e p = .ok ↔ (0 ≤ s ∧ s ≤ 23 ∧ 0 ≤ e ∧ e ≤ 23 ∧ s < e) := by
  unfold validateArgs
  split_ifs <;> simp <;> omega

theorem validateArgs_err_of_bad (s e p : Int)
    (hbad : ¬ (0 ≤ s ∧ s ≤ 23 ∧ 0 ≤ e ∧ e ≤ 23 ∧ s < e)) :
    ∃ m, validateArgs s e p = .err m := by
  unfold validateArgs
  split_ifs with h1 h2 h3 h4 <;> first | exact ⟨_, rfl⟩ | (exfalso; omega)

theorem mainModel_exit_of_err (s e p : Int) (m : String)
    (herr : validateArgs s e p = .err m)
    (date : String) (creds : Option (List Char × List Char)) (fs : FileState)
    (inputs : List (List Char)) (searchRes : List Course) (authR prefsR : HttpResult) :
    mainModel s e p date creds fs inputs searchRes authR prefsR = (.exit1, fs, []) := by
  unfold mainModel
  rw [herr]

/-! ## Claim theorems -/

/-- C1, counterexample: on the three-course list, the input `"5"` contains
only an out-of-range 1-based index, yet `select_courses` returns at once
with the empty selection instead of re-prompting — a re-prompt would have
consumed the next input `"1"` and produced `["alpha"]`, as the third
conjunct shows happens when `"1"` is the first input. -/
theorem c1_counterexample :
    selectStep demoCourses (cl "5") = some [] ∧
    select_courses demoCourses [cl "5", cl "1"] = some ([], [cl "1"]) ∧
    select_courses demoCourses [cl "1"] = some ([cl "alpha"], []) := by
  decide

/-- C1 (amended): for a non-empty course list and an input other than
`all`, an input whose comma-separated parts do not all parse as Python
integers prints an error and re-prompts (recursing with the same course
list); an input that parses returns immediately with the in-range
selections, silently dropping out-of-range indices (possibly returning an
empty selection). -/
theorem c1_select_courses_amended :
    ∀ (cs : List Course) (raw : List Char) (rest : List (List Char)),
      cs ≠ [] → pyLower (pyStrip raw) ≠ cl "all" →
      (parseIndices (pyLower (pyStrip raw)) = none →
        select_courses cs (raw :: rest) = select_courses cs rest) ∧
      (∀ idxs, parseIndices (pyLower (pyStrip raw)) = some idxs →
        select_courses cs (raw :: rest) = some (idxs.filterMap (pickCourse cs), rest)) :=
  fun cs raw rest hne hall =>
    ⟨fun hp => select_courses_reprompt cs raw rest hne hall hp,
     fun idxs hp => select_courses_returns cs raw rest hne hall idxs hp⟩

/-- C1, witness: the amended claim evaluated at concrete inputs — the
non-numeric `"7x"` re-prompts, and `"1,3"` returns the first and third
course names. -/
theorem c1_witness :
    select_courses demoCourses [cl "7x", cl "2"] = select_courses demoCourses [cl "2"] ∧
    select_courses demoCourses [cl "1,3", cl "2"] =
      some ([0, 2].filterMap (pickCourse demoCourses), [cl "2"]) :=
  ⟨(c1_select_courses_amended demoCourses (cl "7x") [cl "2"] (by decide) (by decide)).1
      (by decide),
   (c1_select_courses_amended demoCourses (cl "1,3") [cl "2"] (by decide) (by decide)).2
      [0, 2] (by decide)⟩

/-- C2: for players in range, the argument check accepts exactly the pairs
`0 ≤ s ≤ 23`, `0 ≤ e ≤ 23`, `s < e`; for every other pair it produces an
error message and `main` exits with code 1 having performed no network
call and no config write. -/
theorem c2_time_validation :
    (∀ s e p : Int, 1 ≤ p → p ≤ 4 →
      (validateArgs s e p = .ok ↔ (0 ≤ s ∧ s ≤ 23 ∧ 0 ≤ e ∧ e ≤ 23 ∧ s < e))) ∧
    (∀ s e p : Int, ¬ (0 ≤ s ∧ s ≤ 23 ∧ 0 ≤ e ∧ e ≤ 23 ∧ s < e) →
      ∀ (date : String) (creds : Option (List Char × List Char)) (fs : FileState)
        (inputs : List (List Char)) (searchRes : List Course) (authR prefsR : HttpResult),
        ∃ m, validateArgs s e p = .err m ∧
          mainModel s e p date creds fs inputs searchRes authR prefsR = (.exit1, fs, [])) := by
  constructor
  · intro s e p h1 h2
    exact validateArgs_ok_iff s e p ⟨h1, h2⟩
  · intro s e p hbad date creds fs inputs searchRes authR prefsR
    obtain ⟨m, hm⟩ := validateArgs_err_of_bad s e p hbad
    exact ⟨m, hm, mainModel_exit_of_err s e p m hm date creds fs inputs searchRes authR prefsR⟩

/-- C2, witness: `(5, 12)` is accepted; `(12, 5)` is rejected with exit 1
and an empty effect trace. -/
theorem c2_witness :
    (validateArgs 5 12 2 = .ok ↔
      (0 ≤ (5 : Int) ∧ (5 : Int) ≤ 23 ∧ 0 ≤ (12 : Int) ∧ (12 : Int) ≤ 23 ∧ (5 : Int) < 12)) ∧
    (∃ m, validateArgs 12 5 2 = .err m ∧
      mainModel 12 5 2 "2024-06-01" none .missing [] [] .transportError .transportError =
        (.exit1, .missing, [])) :=
  ⟨c2_time_validation.1 5 12 2 (by decide) (by decide),
   c2_time_validation.2 12 5 2 (by decide) "2024-06-01" none .missing [] [] .transportError
     .transportError⟩

/-- C5, counterexample: a present config file whose bytes do not decode as
UTF-8 makes `json.load`'s internal read raise `UnicodeDecodeError` — a
`ValueError` that is neither a `JSONDecodeError` nor an `IOError`, so the
handler at source line 128 does not catch it and the exception reaches the
caller (`none`): `load_config` is not total at its interface. -/
theorem c5_counterexample :
    load_config .nonUtf8 = none := rfl

/-- C5, amended: `load_config` returns the empty mapping on a missing
file, on a file whose open raises `IOError`, and on decodable content that
`json.load` cannot parse, and returns normally on every decodable content;
only the non-UTF-8 file state escapes as an uncaught exception. -/
theorem c5_load_config_amended :
    load_config .missing = some (.obj .nil) ∧
    load_config .unreadable = some (.obj .nil) ∧
    (∀ s, parseTop s = none → load_config (.content s) = some (.obj .nil)) ∧
    (∀ s, ∃ v, load_config (.content s) = some v) := by
  refine ⟨rfl, rfl, fun s hp => by simp [load_config, hp], fun s => ?_⟩
  rw [load_config]
  cases parseTop s with
  | none => exact ⟨.obj .nil, rfl⟩
  | some v => exact ⟨v, rfl⟩

/-- C5, witness: the unparseable decodable content `"not json"` yields the
empty mapping. -/
theorem c5_witness :
    load_config (.content (cl "not json")) = some (.obj .nil) :=
  c5_load_config_amended.2.2.1 (cl "not json") rfl

/-- C6, counterexample: a response with the non-2xx status 301 and a body
containing a course is treated as success — `search_courses_by_zip`
returns that course list, not the empty list the claim requires for every
non-2xx status (`raise_for_status` only raises for 400-599). -/
theorem c6_counterexample :
    search_courses_by_zip (cl "90210") 50
        (.response 301 (some (.obj (.cons (cl "courses")
          (.arr (.cons (.str (cl "x")) .nil)) .nil)))) =
      some (.arr (.cons (.str (cl "x")) .nil)) ∧
    (Json.arr (.cons (.str (cl "x")) .nil)) ≠ .arr .nil := by
  refine ⟨rfl, ?_⟩
  simp

/-- C6 (amended): the search returns the empty list on a transport error,
on any status in `[400, 600)`, on an undecodable body, and on a decoded
object body without a `courses` key; for statuses outside `[400, 600)`
(which includes every non-error status, 3xx among them) with a decoded
object body it returns the value of the `courses` key. -/
theorem c6_search_amended :
    ∀ (zip : List Char) (radius : Nat),
      (search_courses_by_zip zip radius .transportError = some (.arr .nil)) ∧
      (∀ st body, 400 ≤ st → st < 600 →
        search_courses_by_zip zip radius (.response st body) = some (.arr .nil)) ∧
      (∀ st, ¬ (400 ≤ st ∧ st < 600) →
        search_courses_by_zip zip radius (.response st none) = some (.arr .nil)) ∧
      (∀ st kvs, ¬ (400 ≤ st ∧ st < 600) → lookupKey kvs (cl "courses") = none →
        search_courses_by_zip zip radius (.response st (some (.obj kvs))) = some (.arr .nil)) ∧
      (∀ st kvs v, ¬ (400 ≤ st ∧ st < 600) → lookupKey kvs (cl "courses") = some v →
        search_courses_by_zip zip radius (.response st (some (.obj kvs))) = some v) := by
  intro zip radius
  refine ⟨rfl, ?_, ?_, ?_, ?_⟩
  · intro st body h1 h2
    simp [search_courses_by_zip, h1, h2]
  · intro st hst
    simp [search_courses_by_zip, hst]
  · intro st kvs hst hk
    simp [search_courses_by_zip, hst, getD, hk]
  · intro st kvs v hst hk
    simp [search_courses_by_zip, hst, getD, hk]

/-- C6, witness: HTTP 500 yields the empty list; a 200 whose body has no
`courses` key yields the empty list; a 200 with a `courses` key yields its
value. -/
theorem c6_witness :
    search_courses_by_zip (cl "90210") 50 (.response 500 none) = some (.arr .nil) ∧
    search_courses_by_zip (cl "90210") 50 (.response 200 (some (.obj .nil))) =
      some (.arr .nil) ∧
    search_courses_by_zip (cl "90210") 50
        (.response 200 (some (.obj (.cons (cl "courses") (.arr .nil) .nil)))) =
      some (.arr .nil) :=
  ⟨(c6_search_amended (cl "90210") 50).2.1 500 none (by decide) (by decide),
   (c6_search_amended (cl "90210") 50).2.2.2.1 200 .nil (by decide) rfl,
   (c6_search_amended (cl "90210") 50).2.2.2.2 200
     (.cons (cl "courses") (.arr .nil) .nil) (.arr .nil) (by decide) rfl⟩

/-- C7, counterexample: even instantiating the claim's two hardcoded
numeric fields with the source's own constants, the payload the code
builds differs from the claim's enumerated shape — the code adds a third
hardcoded numeric field `alerts_sent: 0` inside the preferences object. -/
theorem c7_counterexample :
    preferencePayload 5 12 (cl "2024-06-01") (cl "2") (.arr (jStrs [cl "alpha"])) ≠
      claimedPayload 56865685699492 2241 5 12 (cl "2024-06-01") (cl "2")
        (.arr (jStrs [cl "alpha"])) := by
  simp [preferencePayload, claimedPayload]

/-- C7 (amended): for every input, the payload is an object with exactly
the keys `uuid` (hardcoded account identifier), `preferences` and
`golfer_ignore_in_analytics` (hardcoded flag 2241), where the preferences
object holds exactly the given course list, singleton start/end-time
lists, a singleton player list, a singleton date list, the hardcoded
`preferences_id` and a hardcoded `alerts_sent` counter of 0. -/
theorem c7_payload_amended :
    ∀ (startT endT : Int) (date players : List Char) (courses : Json),
      ∃ prefs,
        preferencePayload startT endT date players courses =
          .obj (.cons (cl "uuid") (.str (cl "thouv0sZQpfu6vUMzET6Hu696yx1"))
            (.cons (cl "preferences") (.obj prefs)
            (.cons (cl "golfer_ignore_in_analytics") (.int 2241) .nil))) ∧
        keysOf prefs = [cl "courses", cl "start_times", cl "end_times", cl "players",
          cl "dates", cl "preferences_id", cl "alerts_sent"] ∧
        lookupKey prefs (cl "courses") = some courses ∧
        lookupKey prefs (cl "start_times") = some (.arr (.cons (.int startT) .nil)) ∧
        lookupKey prefs (cl "end_times") = some (.arr (.cons (.int endT) .nil)) ∧
        lookupKey prefs (cl "players") = some (.arr (.cons (.str players) .nil)) ∧
        lookupKey prefs (cl "dates") = some (.arr (.cons (.str date) .nil)) ∧
        lookupKey prefs (cl "preferences_id") = some (.int 56865685699492) ∧
        lookupKey prefs (cl "alerts_sent") = some (.int 0) :=
  fun _ _ _ _ _ => ⟨_, rfl, rfl, rfl, rfl, rfl, rfl, rfl, rfl, rfl⟩

/-- C3, counterexample: `validate_date` accepts `"2024-1-5"`, a string that
is not in the zero-padded `YYYY-MM-DD` format — `strptime`'s `%m` and `%d`
accept one-digit months and days. -/
theorem c3_counterexample :
    validate_date "2024-1-5" = true ∧ strictYMDFormat (cl "2024-1-5") = false := by
  decide

/-- C3 (amended): `validate_date` accepts a string exactly when it splits on
dashes into a four-digit year, a one- or two-digit month and a one- or
two-digit day forming a constructible calendar date (no zero-padding
required); no past/future range check is applied, so dates such as
1900-01-01 and 2999-12-31 are both accepted, while the spec's examples
`"2024-13-40"` and `"01/01/2024"` are rejected. -/
theorem c3_validate_date_amended :
    (∀ s : String, validate_date s = true ↔ parsesLenientYMD s.data) ∧
    validate_date "1900-01-01" = true ∧
    validate_date "2999-12-31" = true ∧
    validate_date "2024-13-40" = false ∧
    validate_date "01/01/2024" = false :=
  ⟨validate_date_iff_lenient, by decide, by decide, by decide, by decide⟩

/-! ### String-escape round trip -/


theorem char_valid_range (c : Char) :
    c.toNat < 55296 ∨ (57343 < c.toNat ∧ c.toNat < 1114112) := c.valid

theorem hexVal_hexDigitChar : ∀ k, k < 16 → hexVal (hexDigitChar k) = some k := by decide

theorem hex4Val_hex4 (n : Nat) (h : n < 65536) :
    hex4Val (hexDigitChar (n / 4096 % 16)) (hexDigitChar (n / 256 % 16))
      (hexDigitChar (n / 16 % 16)) (hexDigitChar (n % 16)) = some n := by
  rw [hex4Val, hexVal_hexDigitChar _ (by omega), hexVal_hexDigitChar _ (by omega),
    hexVal_hexDigitChar _ (by omega), hexVal_hexDigitChar _ (by omega)]
  simp only [Option.some.injEq]
  omega

theorem scanStr_escapeChar (c : Char) (t : List Char) :
    scanStr (escapeChar c ++ t) = (scanStr t).map (fun p => (c :: p.1, p.2)) := by
  by_cases h1 : c = dq
  · subst h1
    rw [show escapeChar dq ++ t = bsl :: dq :: t from rfl, scanStr, scanEscape]
    cases scanStr t <;> rfl
  · by_cases h2 : c = bsl
    · subst h2
      rw [show escapeChar bsl ++ t = bsl :: bsl :: t from rfl, scanStr, scanEscape]
      cases scanStr t <;> rfl
    · by_cases h3 : c.toNat = 8
      · have hc : c = Char.ofNat 8 := by rw [← Char.ofNat_toNat c, h3]
        subst hc
        rw [show escapeChar (Char.ofNat 8) ++ t = bsl :: 'b' :: t from rfl, scanStr, scanEscape]
        cases scanStr t <;> rfl
      · by_cases h4 : c.toNat = 12
        · have hc : c = Char.ofNat 12 := by rw [← Char.ofNat_toNat c, h4]
          subst hc
          rw [show escapeChar (Char.ofNat 12) ++ t = bsl :: 'f' :: t from rfl, scanStr, scanEscape]
          cases scanStr t <;> rfl
        · by_cases h5 : c.toNat = 10
          · have hc : c = Char.ofNat 10 := by rw [← Char.ofNat_toNat c, h5]
            subst hc
            rw [show escapeChar (Char.ofNat 10) ++ t = bsl :: 'n' :: t from rfl, scanStr, scanEscape]
            cases scanStr t <;> rfl
          · by_cases h6 : c.toNat = 13
            · have hc : c = Char.ofNat 13 := by rw [← Char.ofNat_toNat c, h6]
              subst hc
              rw [show escapeChar (Char.ofNat 13) ++ t = bsl :: 'r' :: t from rfl, scanStr, scanEscape]
              cases scanStr t <;> rfl
            · by_cases h7 : c.toNat = 9
              · have hc : c = Char.ofNat 9 := by rw [← Char.ofNat_toNat c, h7]
                subst hc
                rw [show escapeChar (Char.ofNat 9) ++ t = bsl :: 't' :: t from rfl, scanStr, scanEscape]
                cases scanStr t <;> rfl
              · by_cases h8 : c.toNat < 32 ∨ 126 < c.toNat
                · by_cases h9 : c.toNat < 65536
                  · have hesc : escapeChar c ++ t =
                        bsl :: 'u' :: hexDigitChar (c.toNat / 4096 % 16) ::
                          hexDigitChar (c.toNat / 256 % 16) :: hexDigitChar (c.toNat / 16 % 16) ::
                          hexDigitChar (c.toNat % 16) :: t := by
                      unfold escapeChar
                      rw [if_neg h1, if_neg h2, if_neg h3, if_neg h4, if_neg h5, if_neg h6,
                        if_neg h7, if_pos h8, if_pos h9]
                      rfl
                    rw [hesc, scanStr, scanEscape, scanUni, hex4Val_hex4 _ h9]
                    have hv := char_valid_range c
                    rw [if_neg (by decide : ¬ bsl = dq), if_pos (rfl : bsl = bsl),
                      if_pos (rfl : ('u' : Char) = 'u')]
                    dsimp only
                    rw [if_neg (by omega : ¬ (55296 ≤ c.toNat ∧ c.toNat ≤ 56319)),
                      if_neg (by omega : ¬ (56320 ≤ c.toNat ∧ c.toNat ≤ 57343))]
                    cases scanStr t <;> simp
                  · have hle : c.toNat < 1114112 := by
                      rcases char_valid_range c with h | h
                      · omega
                      · exact h.2
                    have hesc : escapeChar c ++ t =
                        bsl :: 'u' :: hexDigitChar ((55296 + (c.toNat - 65536) / 1024) / 4096 % 16) ::
                          hexDigitChar ((55296 + (c.toNat - 65536) / 1024) / 256 % 16) ::
                          hexDigitChar ((55296 + (c.toNat - 65536) / 1024) / 16 % 16) ::
                          hexDigitChar ((55296 + (c.toNat - 65536) / 1024) % 16) ::
                          bsl :: 'u' :: hexDigitChar ((56320 + (c.toNat - 65536) % 1024) / 4096 % 16) ::
                          hexDigitChar ((56320 + (c.toNat - 65536) % 1024) / 256 % 16) ::
                          hexDigitChar ((56320 + (c.toNat - 65536) % 1024) / 16 % 16) ::
                          hexDigitChar ((56320 + (c.toNat - 65536) % 1024) % 16) :: t := by
                      unfold escapeChar
                      rw [if_neg h1, if_neg h2, if_neg h3, if_neg h4, if_neg h5, if_neg h6,
                        if_neg h7, if_pos h8, if_neg h9]
                      simp [hex4]
                    rw [hesc, scanStr, scanEscape, scanUni, hex4Val_hex4 _ (by omega)]
                    rw [if_neg (by decide : ¬ bsl = dq), if_pos (rfl : bsl = bsl),
                      if_pos (rfl : ('u' : Char) = 'u')]
                    dsimp only
                    rw [if_pos (by omega : 55296 ≤ 55296 + (c.toNat - 65536) / 1024 ∧
                        55296 + (c.toNat - 65536) / 1024 ≤ 56319)]
                    rw [scanUniPair, hex4Val_hex4 _ (by omega)]
                    dsimp only
                    rw [if_pos (⟨rfl, rfl⟩ : bsl = bsl ∧ ('u' : Char) = 'u'),
                      if_pos (by omega : 56320 ≤ 56320 + (c.toNat - 65536) % 1024 ∧
                        56320 + (c.toNat - 65536) % 1024 ≤ 57343)]
                    have harith : 65536 + (55296 + (c.toNat - 65536) / 1024 - 55296) * 1024 +
                        (56320 + (c.toNat - 65536) % 1024 - 56320) = c.toNat := by omega
                    rw [harith]
                    cases scanStr t <;> simp
                · have hesc : escapeChar c ++ t = c :: t := by
                    unfold escapeChar
                    rw [if_neg h1, if_neg h2, if_neg h3, if_neg h4, if_neg h5, if_neg h6,
                      if_neg h7, if_neg h8]
                    rfl
                  rw [hesc, scanStr, if_neg h1, if_neg h2, if_neg (by omega : ¬ c.toNat < 32)]
                  cases scanStr t <;> simp

/-! ### Number rendering and parsing -/


theorem scanStr_escStr (s t : List Char) :
    scanStr ((s.map escapeChar).flatten ++ (dq :: t)) = some (s, t) := by
  induction s with
  | nil =>
    rw [List.map_nil, List.flatten_nil, List.nil_append, scanStr]
    rfl
  | cons c s ih =>
    rw [List.map_cons, List.flatten_cons, List.append_assoc, scanStr_escapeChar, ih]
    rfl

theorem natToCharsAux_fuel (n : Nat) : ∀ f1 f2, n < f1 → n < f2 →
    natToCharsAux f1 n = natToCharsAux f2 n := by
  induction n using Nat.strong_induction_on with
  | _ n ih =>
    intro f1 f2 hf1 hf2
    match f1, f2 with
    | g1 + 1, g2 + 1 =>
      rw [natToCharsAux, natToCharsAux]
      by_cases h : n < 10
      · rw [if_pos h, if_pos h]
      · rw [if_neg h, if_neg h, ih (n / 10) (by omega) g1 g2 (by omega) (by omega)]

theorem natToChars_small (n : Nat) (h : n < 10) :
    natToChars n = [Char.ofNat (48 + n)] := by
  rw [natToChars, natToCharsAux, if_pos h]

theorem natToChars_large (n : Nat) (h : 10 ≤ n) :
    natToChars n = natToChars (n / 10) ++ [Char.ofNat (48 + n % 10)] := by
  rw [natToChars, natToCharsAux, if_neg (by omega), natToChars,
    natToCharsAux_fuel (n / 10) n (n / 10 + 1) (by omega) (by omega)]

theorem digit_char_facts : ∀ k, k < 10 →
    (Char.ofNat (48 + k)).toNat = 48 + k ∧ isDig (Char.ofNat (48 + k)) = true ∧
      (1 ≤ k → Char.ofNat (48 + k) ≠ '0') := by decide

theorem natToChars_spec (n : Nat) :
    ∃ c r, natToChars n = c :: r ∧ isDig c = true ∧ (∀ x ∈ r, isDig x = true) ∧
      (1 ≤ n → c ≠ '0') := by
  induction n using Nat.strong_induction_on with
  | _ n ih =>
    by_cases h : n < 10
    · refine ⟨Char.ofNat (48 + n), [], natToChars_small n h, ?_, by simp, ?_⟩
      · exact (digit_char_facts n h).2.1
      · intro h1
        exact (digit_char_facts n h).2.2 h1
    · obtain ⟨c, r, hc, hdig, hall, hz⟩ := ih (n / 10) (by omega)
      refine ⟨c, r ++ [Char.ofNat (48 + n % 10)], ?_, hdig, ?_, fun _ => hz (by omega)⟩
      · rw [natToChars_large n (by omega), hc]
        rfl
      · intro x hx
        rcases List.mem_append.1 hx with h1 | h1
        · exact hall x h1
        · simp at h1
          subst h1
          exact (digit_char_facts (n % 10) (by omega)).2.1

/-! ### Integer token round trip -/


theorem munch_append (ds : List Char) : ∀ (acc : Nat) (t : List Char),
    (∀ c ∈ ds, isDig c = true) → (t = [] ∨ ∃ c r, t = c :: r ∧ isDig c = false) →
    munch acc (ds ++ t) =
      (ds.foldl (fun a c => a * 10 + (c.toNat - 48)) acc, t) := by
  induction ds with
  | nil =>
    intro acc t _ ht
    rcases ht with rfl | ⟨c, r, rfl, hc⟩
    · rw [List.nil_append, munch]
      rfl
    · rw [List.nil_append, munch, if_neg (by simp [hc])]
      rfl
  | cons d ds ih =>
    intro acc t hall ht
    rw [List.cons_append, munch, if_pos (hall d (by simp)),
      ih _ t (fun c hc => hall c (by simp [hc])) ht]
    rfl

theorem foldl_digits_natToChars (n : Nat) : ∀ acc,
    (natToChars n).foldl (fun a c => a * 10 + (c.toNat - 48)) acc =
      acc * 10 ^ (natToChars n).length + n := by
  induction n using Nat.strong_induction_on with
  | _ n ih =>
    intro acc
    by_cases h : n < 10
    · rw [natToChars_small n h]
      simp only [List.foldl_cons, List.foldl_nil, List.length_cons, List.length_nil,
        pow_one, pow_zero, mul_one]
      rw [(digit_char_facts n h).1]
      omega
    · rw [natToChars_large n (by omega), List.foldl_append, ih (n / 10) (by omega) acc]
      simp only [List.foldl_cons, List.foldl_nil, List.length_append, List.length_cons,
        List.length_nil]
      rw [(digit_char_facts (n % 10) (by omega)).1]
      have hpow : 10 ^ ((natToChars (n / 10)).length + (0 + 1)) =
          10 ^ (natToChars (n / 10)).length * 10 := by ring
      rw [hpow]
      have h10 : (n / 10) * 10 + (48 + n % 10 - 48) = n := by omega
      ring_nf
      omega

theorem parseNatTok_natToChars (n : Nat) (t : List Char)
    (ht : t = [] ∨ ∃ c r, t = c :: r ∧ isDig c = false) :
    parseNatTok (natToChars n ++ t) = some (n, t) := by
  obtain ⟨c, r, hc, hdig, hall, hz⟩ := natToChars_spec n
  by_cases hn : n = 0
  · subst hn
    rw [show natToChars 0 = ['0'] from rfl, List.cons_append, parseNatTok, if_pos rfl]
    rfl
  · have h2 : (c :: r).foldl (fun a x => a * 10 + (x.toNat - 48)) 0 = n := by
      rw [← hc]
      have := foldl_digits_natToChars n 0
      simpa using this
    simp only [List.foldl_cons, Nat.zero_mul, Nat.zero_add] at h2
    rw [hc, List.cons_append, parseNatTok, if_neg (hz (by omega)), if_pos hdig,
      munch_append r (c.toNat - 48) t hall ht, h2]

theorem parseIntTok_intToChars (i : Int) (t : List Char)
    (ht : t = [] ∨ ∃ c r, t = c :: r ∧ isDig c = false) :
    parseIntTok (intToChars i ++ t) = some (i, t) := by
  by_cases hneg : i < 0
  · rw [show intToChars i = '-' :: natToChars (-i).toNat from by rw [intToChars, if_pos hneg],
      List.cons_append, parseIntTok, parseNatTok_natToChars _ t ht]
    simp
    omega
  · have h0 : intToChars i = natToChars i.toNat := by rw [intToChars, if_neg hneg]
    obtain ⟨c, r, hc, hdig, hall, hz⟩ := natToChars_spec i.toNat
    have hcne : c ≠ '-' := by
      intro h
      subst h
      simp [isDig] at hdig
    rw [h0, hc, List.cons_append, parseIntTok.eq_def]
    split
    · next rest heq =>
      injection heq with h1 h2
      exact absurd h1 hcne
    · next =>
      rw [← List.cons_append, ← hc, parseNatTok_natToChars i.toNat t ht]
      simp
      omega

/-! ### Whitespace, head and atom lemmas for the parser -/


theorem skipWs_not_ws (c : Char) (t : List Char) (h : wsB c = false) :
    skipWs (c :: t) = c :: t := by
  simp [skipWs, List.dropWhile_cons, h]

theorem skipWs_nlc (t : List Char) : skipWs (nlc :: t) = skipWs t := by
  simp [skipWs, List.dropWhile_cons, wsB, nlc]

theorem skipWs_spaces (n : Nat) (t : List Char) : skipWs (spaces n ++ t) = skipWs t := by
  induction n with
  | zero => rfl
  | succ n ih =>
    rw [spaces, List.replicate_succ, List.cons_append]
    simp only [skipWs, List.dropWhile_cons]
    rw [show wsB ' ' = true from rfl]
    exact ih

theorem isDig_not_special (c : Char) (h : isDig c = true) :
    wsB c = false ∧ c ≠ ']' ∧ c ≠ rcb ∧ c ≠ 'n' ∧ c ≠ 't' ∧ c ≠ 'f' ∧ c ≠ dq ∧
      c ≠ '[' ∧ c ≠ lcb ∧ c ≠ '.' ∧ c ≠ 'e' ∧ c ≠ 'E' := by
  simp only [isDig, Bool.and_eq_true, decide_eq_true_eq] at h
  refine ⟨?_, ?_, ?_, ?_, ?_, ?_, ?_, ?_, ?_, ?_, ?_, ?_⟩
  · simp only [wsB, Bool.or_eq_false_iff, decide_eq_false_iff_not]
    refine ⟨⟨⟨?_, ?_⟩, ?_⟩, ?_⟩ <;> (intro hh; subst hh; revert h; decide)
  all_goals (intro hh; subst hh; revert h; decide)

theorem ser_head (d : Nat) (v : Json) :
    ∃ c r, ser d v = c :: r ∧ wsB c = false ∧ c ≠ ']' ∧ c ≠ rcb := by
  cases v with
  | int n =>
    by_cases hneg : n < 0
    · exact ⟨'-', _, by rw [ser, intToChars, if_pos hneg], by decide⟩
    · obtain ⟨c, r, hc, hdig, _, _⟩ := natToChars_spec n.toNat
      obtain ⟨hws, h1, h2, _⟩ := isDig_not_special c hdig
      exact ⟨c, r, by rw [ser, intToChars, if_neg hneg, hc], hws, h1, h2⟩
  | str s =>
    refine ⟨dq, (s.map escapeChar).flatten ++ [dq], ?_, by decide⟩
    rw [ser, escStr, List.cons_append]
  | bool b => cases b with
    | true => exact ⟨'t', _, rfl, by decide⟩
    | false => exact ⟨'f', _, rfl, by decide⟩
  | null => exact ⟨'n', _, rfl, by decide⟩
  | arr xs => cases xs with
    | nil => exact ⟨'[', _, rfl, by decide⟩
    | cons x xs => exact ⟨'[', _, rfl, by decide⟩
  | obj kvs => cases kvs with
    | nil => exact ⟨lcb, _, rfl, by decide⟩
    | cons k v kvs => exact ⟨lcb, _, rfl, by decide⟩

theorem skipWs_ser (d : Nat) (v : Json) (t : List Char) :
    skipWs (ser d v ++ t) = ser d v ++ t := by
  obtain ⟨c, r, hc, hws, _, _⟩ := ser_head d v
  rw [hc, List.cons_append, skipWs_not_ws c _ hws]

theorem tailOk_numStop (t : List Char) (h : tailOk t) :
    t = [] ∨ ∃ c r, t = c :: r ∧ isDig c = false := by
  rcases h with rfl | ⟨r, rfl⟩ | ⟨r, rfl⟩
  · exact Or.inl rfl
  · exact Or.inr ⟨',', r, rfl, by decide⟩
  · exact Or.inr ⟨nlc, r, rfl, by decide⟩

theorem parseVal_null (f : Nat) (d : Nat) (rest : List Char) :
    parseVal (f + 1) (ser d .null ++ rest) = some (.null, rest) := by
  rw [show ser d .null ++ rest = 'n' :: 'u' :: 'l' :: 'l' :: rest from rfl, parseVal]
  rfl

theorem parseVal_bool (f : Nat) (d : Nat) (b : Bool) (rest : List Char) :
    parseVal (f + 1) (ser d (.bool b) ++ rest) = some (.bool b, rest) := by
  cases b with
  | true =>
    rw [show ser d (.bool true) ++ rest = 't' :: 'r' :: 'u' :: 'e' :: rest from rfl, parseVal]
    rfl
  | false =>
    rw [show ser d (.bool false) ++ rest = 'f' :: 'a' :: 'l' :: 's' :: 'e' :: rest from rfl,
      parseVal]
    rfl

theorem floatNext_tailOk (t : List Char) (ht : tailOk t) : floatNext t = false := by
  rcases ht with rfl | ⟨r, rfl⟩ | ⟨r, rfl⟩ <;> rfl

theorem parseVal_int (f : Nat) (d : Nat) (i : Int) (rest : List Char) (ht : tailOk rest) :
    parseVal (f + 1) (ser d (.int i) ++ rest) = some (.int i, rest) := by
  have hnum := parseIntTok_intToChars i rest (tailOk_numStop rest ht)
  rw [show ser d (.int i) = intToChars i from rfl]
  by_cases hneg : i < 0
  · rw [show intToChars i = '-' :: natToChars (-i).toNat from by rw [intToChars, if_pos hneg]]
    rw [List.cons_append, parseVal]
    rw [if_neg (by decide), if_neg (by decide), if_neg (by decide), if_neg (by decide),
      if_neg (by decide), if_neg (by decide), if_pos (Or.inl rfl : ('-' : Char) = '-' ∨ isDig '-' = true)]
    rw [show ('-' :: (natToChars (-i).toNat ++ rest)) = intToChars i ++ rest from by
      rw [intToChars, if_pos hneg, List.cons_append]]
    rw [hnum]
    dsimp only
    rw [floatNext_tailOk rest ht]
    rfl
  · have h0 : intToChars i = natToChars i.toNat := by rw [intToChars, if_neg hneg]
    obtain ⟨c, r, hc, hdig, _, _⟩ := natToChars_spec i.toNat
    obtain ⟨_, _, _, hn, htt, hf, hq, hbr, hcb, _, _, _⟩ := isDig_not_special c hdig
    rw [h0, hc, List.cons_append, parseVal]
    rw [if_neg hn, if_neg htt, if_neg hf, if_neg hq, if_neg hbr, if_neg hcb,
      if_pos (Or.inr hdig : c = '-' ∨ isDig c = true)]
    rw [show (c :: (r ++ rest)) = intToChars i ++ rest from by rw [h0, hc, List.cons_append]]
    rw [hnum]
    dsimp only
    rw [floatNext_tailOk rest ht]
    rfl

theorem parseVal_str (f : Nat) (d : Nat) (s : List Char) (rest : List Char) :
    parseVal (f + 1) (ser d (.str s) ++ rest) = some (.str s, rest) := by
  rw [show ser d (.str s) ++ rest = dq :: ((s.map escapeChar).flatten ++ (dq :: rest)) from by
    rw [ser, escStr]; simp]
  rw [parseVal]
  rw [if_neg (by decide), if_neg (by decide), if_neg (by decide), if_pos (rfl : dq = dq)]
  rw [scanStr_escStr]

/-! ### Python dict collapse is the identity on duplicate-free pairs -/


theorem skipWs_space (t : List Char) : skipWs (' ' :: t) = skipWs t := by
  simp [skipWs, List.dropWhile_cons, wsB]

theorem contains_append_eq (l1 l2 : List (List Char)) (k : List Char) :
    (l1 ++ l2).contains k = (l1.contains k || l2.contains k) := by
  induction l1 with
  | nil => simp
  | cons a t ih => simp [List.contains_cons, ih, Bool.or_assoc]

theorem appE_nil : ∀ a : JEntries, appE a .nil = a
  | .nil => rfl
  | .cons _ _ t => by rw [appE, appE_nil t]

theorem keysOf_appE : ∀ a b : JEntries, keysOf (appE a b) = keysOf a ++ keysOf b
  | .nil, _ => rfl
  | .cons _ _ t, b => by rw [appE, keysOf, keysOf, keysOf_appE t b, List.cons_append]

theorem appE_assoc : ∀ a b c : JEntries, appE (appE a b) c = appE a (appE b c)
  | .nil, _, _ => rfl
  | .cons _ _ t, b, c => by rw [appE, appE, appE, appE_assoc t b c]

theorem insertKey_append : ∀ (acc : JEntries) (k : List Char) (v : Json),
    (keysOf acc).contains k = false → insertKey acc k v = appE acc (.cons k v .nil)
  | .nil, _, _, _ => rfl
  | .cons k1 v1 rest, k, v, h => by
    simp only [keysOf, List.contains_cons, Bool.or_eq_false_iff] at h
    rw [insertKey, if_neg (by
      intro hh
      subst hh
      simp at h), appE, insertKey_append rest k v h.2]

theorem buildDictGo_app : ∀ (pairs acc : JEntries),
    (∀ k, (keysOf pairs).contains k = true → (keysOf acc).contains k = false) →
    noDupKeys (keysOf pairs) = true →
    buildDictGo acc pairs = appE acc pairs
  | .nil, acc, _, _ => by rw [buildDictGo, appE_nil]
  | .cons k v rest, acc, hdisj, hnd => by
    simp only [keysOf, noDupKeys, Bool.and_eq_true, Bool.not_eq_true'] at hnd
    have hkacc : (keysOf acc).contains k = false := hdisj k (by simp [keysOf])
    rw [buildDictGo, insertKey_append acc k v hkacc,
      buildDictGo_app rest (appE acc (.cons k v .nil)) ?_ hnd.2, appE_assoc]
    · rfl
    · intro k2 hk2
      rw [keysOf_appE, contains_append_eq]
      simp only [Bool.or_eq_false_iff]
      constructor
      · by_cases hkk : k2 = k
        · subst hkk
          rw [hk2] at hnd
          exact absurd hnd.1 (by simp)
        · refine hdisj k2 ?_
          simp only [keysOf, List.contains_cons, Bool.or_eq_true]
          right
          exact hk2
      · simp only [keysOf, List.contains_cons, List.contains_nil, Bool.or_eq_false_iff]
        refine ⟨?_, trivial⟩
        by_cases hkk : k2 = k
        · subst hkk
          rw [hk2] at hnd
          exact absurd hnd.1 (by simp)
        · simp only [beq_eq_false_iff_ne, ne_eq]
          exact hkk

theorem buildDict_nodup (pairs : JEntries) (h : noDupKeys (keysOf pairs) = true) :
    buildDict pairs = pairs := by
  rw [buildDict, buildDictGo_app pairs .nil (fun k _ => rfl) h]
  rfl

/-! ### Serialization round trip -/


theorem escStr_append (s t : List Char) :
    escStr s ++ t = dq :: ((s.map escapeChar).flatten ++ (dq :: t)) := by
  simp [escStr]

mutual

theorem rtJ : ∀ v : Json, RTJ v
  | .null => by
    intro f d rest _ hsz ht
    cases f with
    | zero => simp [sizeJ] at hsz
    | succ f => exact parseVal_null f d rest
  | .bool b => by
    intro f d rest _ hsz ht
    cases f with
    | zero => simp [sizeJ] at hsz
    | succ f => exact parseVal_bool f d b rest
  | .int n => by
    intro f d rest _ hsz ht
    cases f with
    | zero => simp [sizeJ] at hsz
    | succ f => exact parseVal_int f d n rest ht
  | .str s => by
    intro f d rest _ hsz ht
    cases f with
    | zero => simp [sizeJ] at hsz
    | succ f => exact parseVal_str f d s rest
  | .arr .nil => by
    intro f d rest _ hsz ht
    cases f with
    | zero => simp [sizeJ] at hsz
    | succ f =>
      rw [show ser d (.arr .nil) ++ rest = '[' :: ']' :: rest from rfl, parseVal]
      rw [if_neg (by decide), if_neg (by decide), if_neg (by decide), if_neg (by decide),
        if_pos (rfl : ('[' : Char) = '[')]
      rw [skipWs_not_ws ']' rest (by decide)]
      dsimp only
      rw [if_pos (rfl : (']' : Char) = ']')]
  | .arr (.cons x xs) => by
    intro f d rest hwf hsz ht
    rw [show wfJson (.arr (.cons x xs)) = (wfJson x && wfList xs) from rfl,
      Bool.and_eq_true] at hwf
    rw [show sizeJ (.arr (.cons x xs)) = 1 + (1 + sizeJ x + sizeL xs) from rfl] at hsz
    cases f with
    | zero => omega
    | succ f =>
      rw [show ser d (.arr (.cons x xs)) ++ rest =
          '[' :: nlc :: (spaces (2 * (d + 1)) ++ (ser (d + 1) x ++ (serElemsTail d xs ++
            nlc :: (spaces (2 * d) ++ (']' :: rest))))) from by
        rw [ser]
        simp [List.append_assoc]]
      rw [parseVal]
      rw [if_neg (by decide), if_neg (by decide), if_neg (by decide), if_neg (by decide),
        if_pos (rfl : ('[' : Char) = '[')]
      rw [skipWs_nlc, skipWs_spaces, skipWs_ser]
      obtain ⟨c0, r0, hc0, hws0, hne0, _⟩ := ser_head (d + 1) x
      rw [hc0, List.cons_append]
      dsimp only
      rw [if_neg hne0, ← List.cons_append, ← hc0]
      rw [rtL xs x (rtJ x) f d rest hwf.1 hwf.2 (by omega) ht]
  | .obj .nil => by
    intro f d rest _ hsz ht
    cases f with
    | zero => simp [sizeJ] at hsz
    | succ f =>
      rw [show ser d (.obj .nil) ++ rest = lcb :: rcb :: rest from rfl, parseVal]
      rw [if_neg (by decide), if_neg (by decide), if_neg (by decide), if_neg (by decide),
        if_neg (by decide), if_pos (rfl : lcb = lcb)]
      rw [skipWs_not_ws rcb rest (by decide)]
      dsimp only
      rw [if_pos (rfl : rcb = rcb)]
  | .obj (.cons k v kvs) => by
    intro f d rest hwf hsz ht
    rw [show wfJson (.obj (.cons k v kvs)) =
        (noDupKeys (keysOf (.cons k v kvs)) && (wfJson v && wfEntries kvs)) from rfl,
      Bool.and_eq_true, Bool.and_eq_true] at hwf
    rw [show sizeJ (.obj (.cons k v kvs)) = 1 + (1 + sizeJ v + sizeE kvs) from rfl] at hsz
    cases f with
    | zero => omega
    | succ f =>
      rw [show ser d (.obj (.cons k v kvs)) ++ rest =
          lcb :: nlc :: (spaces (2 * (d + 1)) ++ (escStr k ++ (':' :: ' ' :: (ser (d + 1) v ++
            (serEntriesTail d kvs ++ nlc :: (spaces (2 * d) ++ rcb :: rest)))))) from by
        rw [ser]
        simp [List.append_assoc]]
      rw [parseVal]
      rw [if_neg (by decide), if_neg (by decide), if_neg (by decide), if_neg (by decide),
        if_neg (by decide), if_pos (rfl : lcb = lcb)]
      rw [skipWs_nlc, skipWs_spaces, escStr_append, skipWs_not_ws dq _ (by decide)]
      dsimp only
      rw [if_neg (by decide : ¬ dq = rcb), ← escStr_append]
      rw [rtE kvs k v (rtJ v) f d rest hwf.2.1 hwf.2.2 (by omega) ht]
      dsimp only
      rw [buildDict_nodup _ hwf.1]

theorem rtL : ∀ xs : JList, RTL xs
  | .nil => by
    intro x hx f d rest hwx _ hsz ht
    rw [show sizeL JList.nil = 0 from rfl] at hsz
    cases f with
    | zero => omega
    | succ f =>
      rw [show serElemsTail d JList.nil = ([] : List Char) from rfl, List.nil_append,
        parseArrLoop]
      rw [hx f (d + 1) (nlc :: (spaces (2 * d) ++ (']' :: rest))) hwx (by omega)
        (Or.inr (Or.inr ⟨_, rfl⟩))]
      dsimp only
      rw [skipWs_nlc, skipWs_spaces, skipWs_not_ws ']' rest (by decide)]
      dsimp only
      rw [if_neg (by decide : ¬ (']' : Char) = ','), if_pos (rfl : (']' : Char) = ']')]
  | .cons y ys => by
    intro x hx f d rest hwx hwl hsz ht
    rw [show wfList (.cons y ys) = (wfJson y && wfList ys) from rfl, Bool.and_eq_true] at hwl
    rw [show sizeL (.cons y ys) = 1 + sizeJ y + sizeL ys from rfl] at hsz
    cases f with
    | zero => omega
    | succ f =>
      rw [show serElemsTail d (.cons y ys) =
          ',' :: nlc :: (spaces (2 * (d + 1)) ++ (ser (d + 1) y ++ serElemsTail d ys)) from by
        rw [serElemsTail]
        simp [List.append_assoc]]
      rw [parseArrLoop]
      rw [show (',' :: nlc :: (spaces (2 * (d + 1)) ++ (ser (d + 1) y ++ serElemsTail d ys))) ++
          nlc :: (spaces (2 * d) ++ (']' :: rest)) =
          ',' :: nlc :: (spaces (2 * (d + 1)) ++ (ser (d + 1) y ++ (serElemsTail d ys ++
            nlc :: (spaces (2 * d) ++ (']' :: rest))))) from by
        simp [List.append_assoc]]
      rw [hx f (d + 1) _ hwx (by omega) (Or.inr (Or.inl ⟨_, rfl⟩))]
      dsimp only
      rw [skipWs_not_ws ',' _ (by decide)]
      dsimp only
      rw [if_pos (rfl : (',' : Char) = ','), skipWs_nlc, skipWs_spaces, skipWs_ser]
      rw [rtL ys y (rtJ y) f d rest hwl.1 hwl.2 (by omega) ht]

theorem rtE : ∀ kvs : JEntries, RTE kvs
  | .nil => by
    intro k v hv f d rest hwv _ hsz ht
    rw [show sizeE JEntries.nil = 0 from rfl] at hsz
    cases f with
    | zero => omega
    | succ f =>
      rw [show serEntriesTail d JEntries.nil = ([] : List Char) from rfl, List.nil_append,
        escStr_append, parseObjLoop]
      rw [if_pos (rfl : dq = dq), scanStr_escStr]
      dsimp only
      rw [skipWs_not_ws ':' _ (by decide)]
      dsimp only
      rw [if_pos (rfl : (':' : Char) = ':'), skipWs_space, skipWs_ser]
      rw [hv f (d + 1) (nlc :: (spaces (2 * d) ++ rcb :: rest)) hwv (by omega)
        (Or.inr (Or.inr ⟨_, rfl⟩))]
      dsimp only
      rw [skipWs_nlc, skipWs_spaces, skipWs_not_ws rcb rest (by decide)]
      dsimp only
      rw [if_neg (by decide : ¬ rcb = ','), if_pos (rfl : rcb = rcb)]
  | .cons k2 v2 kvs => by
    intro k v hv f d rest hwv hwe hsz ht
    rw [show wfEntries (.cons k2 v2 kvs) = (wfJson v2 && wfEntries kvs) from rfl,
      Bool.and_eq_true] at hwe
    rw [show sizeE (.cons k2 v2 kvs) = 1 + sizeJ v2 + sizeE kvs from rfl] at hsz
    cases f with
    | zero => omega
    | succ f =>
      rw [show serEntriesTail d (.cons k2 v2 kvs) =
          ',' :: nlc :: (spaces (2 * (d + 1)) ++ (escStr k2 ++ (':' :: ' ' :: (ser (d + 1) v2 ++
            serEntriesTail d kvs)))) from by
        rw [serEntriesTail]
        simp [List.append_assoc]]
      rw [escStr_append, parseObjLoop]
      rw [if_pos (rfl : dq = dq), scanStr_escStr]
      dsimp only
      rw [skipWs_not_ws ':' _ (by decide)]
      dsimp only
      rw [if_pos (rfl : (':' : Char) = ':'), skipWs_space, skipWs_ser]
      rw [show (',' :: nlc :: (spaces (2 * (d + 1)) ++ (escStr k2 ++ (':' :: ' ' :: (ser (d + 1) v2 ++
            serEntriesTail d kvs))))) ++ nlc :: (spaces (2 * d) ++ rcb :: rest) =
          ',' :: nlc :: (spaces (2 * (d + 1)) ++ (escStr k2 ++ (':' :: ' ' :: (ser (d + 1) v2 ++
            (serEntriesTail d kvs ++ nlc :: (spaces (2 * d) ++ rcb :: rest)))))) from by
        simp [List.append_assoc]]
      rw [hv f (d + 1) _ hwv (by omega) (Or.inr (Or.inl ⟨_, rfl⟩))]
      dsimp only
      rw [skipWs_not_ws ',' _ (by decide)]
      dsimp only
      rw [if_pos (rfl : (',' : Char) = ','), skipWs_nlc, skipWs_spaces]
      rw [escStr_append, skipWs_not_ws dq _ (by decide), ← escStr_append]
      rw [rtE kvs k2 v2 (rtJ v2) f d rest hwe.1 hwe.2 (by omega) ht]

end

/-! ### Size bounds and the top-level round trip -/


mutual

theorem szJ : ∀ (v : Json) (d : Nat), sizeJ v ≤ (ser d v).length
  | .null, _ => by simp [sizeJ, ser]; decide
  | .bool b, _ => by cases b <;> simp [sizeJ, ser] <;> decide
  | .int n, d => by
    obtain ⟨c, r, hc, _, _, _⟩ := natToChars_spec n.toNat
    by_cases hneg : n < 0 <;>
      simp [sizeJ, ser, intToChars, hneg, hc]
  | .str s, d => by
    simp [sizeJ, ser, escStr]
  | .arr .nil, d => by simp [sizeJ, sizeL, ser]
  | .arr (.cons x xs), d => by
    have h1 := szJ x (d + 1)
    have h2 := szL xs d
    rw [show sizeJ (.arr (.cons x xs)) = 1 + (1 + sizeJ x + sizeL xs) from rfl, ser]
    simp only [List.length_cons, List.length_append, spaces, List.length_replicate]
    omega
  | .obj .nil, d => by simp [sizeJ, sizeE, ser]
  | .obj (.cons k v kvs), d => by
    have h1 := szJ v (d + 1)
    have h2 := szE kvs d
    rw [show sizeJ (.obj (.cons k v kvs)) = 1 + (1 + sizeJ v + sizeE kvs) from rfl, ser]
    simp only [List.length_cons, List.length_append, spaces, List.length_replicate]
    omega

theorem szL : ∀ (xs : JList) (d : Nat), sizeL xs ≤ (serElemsTail d xs).length
  | .nil, _ => by simp [sizeL, serElemsTail]
  | .cons y ys, d => by
    have h1 := szJ y (d + 1)
    have h2 := szL ys d
    rw [show sizeL (.cons y ys) = 1 + sizeJ y + sizeL ys from rfl, serElemsTail]
    simp only [List.length_cons, List.length_append, spaces, List.length_replicate]
    omega

theorem szE : ∀ (kvs : JEntries) (d : Nat), sizeE kvs ≤ (serEntriesTail d kvs).length
  | .nil, _ => by simp [sizeE, serEntriesTail]
  | .cons k2 v2 rest, d => by
    have h1 := szJ v2 (d + 1)
    have h2 := szE rest d
    rw [show sizeE (.cons k2 v2 rest) = 1 + sizeJ v2 + sizeE rest from rfl, serEntriesTail]
    simp only [List.length_cons, List.length_append, spaces, List.length_replicate]
    omega

end

theorem parseTop_ser (v : Json) (hwf : wfJson v = true) : parseTop (ser 0 v) = some v := by
  rw [parseTop]
  rw [show skipWs (ser 0 v) = ser 0 v from by
    have h := skipWs_ser 0 v []
    simpa using h]
  have h := rtJ v ((ser 0 v).length + 1) 0 [] hwf (by have := szJ v 0; omega) (Or.inl rfl)
  rw [List.append_nil] at h
  rw [h]
  rfl

/-- C4: saving any well-formed config mapping and loading it back returns
an identical mapping (well-formedness — pairwise distinct keys in every
object — holds for every mapping the program can have loaded or built). -/
theorem c4_config_roundtrip :
    ∀ cfg : Json, wfJson cfg = true → load_config (save_config cfg) = some cfg := by
  intro cfg h
  rw [save_config, load_config, parseTop_ser cfg h]

/-- C4, witness: the round trip evaluated on the claim's example config
`{"default_courses": ["a", "b"], "zipcode": "90210"}`. -/
theorem c4_witness :
    wfJson specConfig = true ∧ load_config (save_config specConfig) = some specConfig :=
  ⟨by decide, c4_config_roundtrip specConfig (by decide)⟩

/-! ### Run lemmas for course resolution -/


theorem lookup_insertKey_ne : ∀ (acc : JEntries) (k : List Char) (v : Json) (key : List Char),
    key ≠ k → lookupKey (insertKey acc k v) key = lookupKey acc key
  | .nil, k, v, key, hne => by
    rw [insertKey]
    rw [show lookupKey (.cons k v .nil) key = if key = k then some v else lookupKey .nil key
      from rfl, if_neg hne]
  | .cons k1 v1 rest, k, v, key, hne => by
    rw [insertKey]
    by_cases h : k = k1
    · subst h
      rw [if_pos rfl, lookupKey, lookupKey, if_neg hne, if_neg hne]
    · rw [if_neg h, lookupKey, lookupKey]
      by_cases h2 : key = k1
      · rw [if_pos h2, if_pos h2]
      · rw [if_neg h2, if_neg h2, lookup_insertKey_ne rest k v key hne]

theorem run_accept (fs : FileState) (kvs : JEntries) (dc : Json) (r : List Char)
    (rest : List (List Char)) (sr : List Course)
    (hload : load_config fs = some (.obj kvs))
    (hdc : lookupKey kvs dcKey = some dc)
    (htr : truthy dc = true)
    (h1 : pyLower (pyStrip r) ≠ cl "n") (h2 : pyLower (pyStrip r) ≠ cl "no")
    (h3 : pyLower (pyStrip r) ≠ cl "reset") :
    get_or_set_default_courses fs (r :: rest) sr = ⟨.ok dc, fs, [], rest⟩ := by
  unfold get_or_set_default_courses
  rw [hload]
  try dsimp only
  rw [hdc]
  try dsimp only
  rw [if_pos htr]
  try dsimp only
  rw [if_neg (by
    intro hc
    rcases hc with hc | hc | hc
    · exact h1 hc
    · exact h2 hc
    · exact h3 hc)]

theorem setup_save (kvs : JEntries) (fs : FileState) (inputs : List (List Char))
    (sr : List Course)
    (hw : Effect.wroteConfig ∈ (setupPhase kvs fs inputs sr).trace) :
    ∃ sel zip, sel ≠ [] ∧
      (setupPhase kvs fs inputs sr).fs =
        save_config (.obj (insertKey (insertKey kvs dcKey (.arr (jStrs sel))) zipKey (.str zip))) ∧
      ∀ key, key ≠ dcKey → key ≠ zipKey →
        lookupKey (insertKey (insertKey kvs dcKey (.arr (jStrs sel))) zipKey (.str zip)) key =
          lookupKey kvs key := by
  unfold setupPhase at hw ⊢
  cases inputs with
  | nil => simp at hw
  | cons z rest =>
    dsimp only at hw ⊢
    by_cases hz : (pyStrip z).isEmpty
    · rw [if_pos hz] at hw
      simp at hw
    · rw [if_neg hz] at hw ⊢
      by_cases hsr : sr.isEmpty
      · rw [if_pos hsr] at hw
        simp at hw
      · rw [if_neg hsr] at hw ⊢
        cases hsel : select_courses sr rest with
        | none =>
          rw [hsel] at hw
          simp at hw
        | some p =>
          obtain ⟨selected, rest2⟩ := p
          rw [hsel] at hw
          dsimp only at hw ⊢
          by_cases hse : selected.isEmpty
          · rw [if_pos hse] at hw
            simp at hw
          · rw [if_neg hse] at hw ⊢
            refine ⟨selected, pyStrip z, by simpa using hse, rfl, ?_⟩
            intro key hk1 hk2
            rw [lookup_insertKey_ne _ _ _ _ hk2, lookup_insertKey_ne _ _ _ _ hk1]

/-! ### Claims C8, C9, C10 -/


/-- C8: the config file is written only on course re-selection. On every run
in which the loaded config has truthy saved `default_courses` and the user's
stripped, lowercased reply is none of `n`, `no`, `reset` (i.e. the saved
defaults are accepted), the final file state equals the initial one and the
effect trace is empty: no write, no search, no network call happens. -/
theorem c8_accept_preserves_file (fs : FileState) (kvs : JEntries) (dc : Json)
    (r : List Char) (rest : List (List Char)) (sr : List Course)
    (hload : load_config fs = some (.obj kvs))
    (hdc : lookupKey kvs dcKey = some dc)
    (htr : truthy dc = true)
    (h1 : pyLower (pyStrip r) ≠ cl "n") (h2 : pyLower (pyStrip r) ≠ cl "no")
    (h3 : pyLower (pyStrip r) ≠ cl "reset") :
    (get_or_set_default_courses fs (r :: rest) sr).fs = fs ∧
    (get_or_set_default_courses fs (r :: rest) sr).trace = [] := by
  rw [run_accept fs kvs dc r rest sr hload hdc htr h1 h2 h3]
  exact ⟨rfl, rfl⟩

theorem c8_witness :
    (get_or_set_default_courses (save_config savedConfigDemo) [cl ""] []).fs =
      save_config savedConfigDemo ∧
    (get_or_set_default_courses (save_config savedConfigDemo) [cl ""] []).trace = [] :=
  c8_accept_preserves_file (save_config savedConfigDemo)
    (.cons dcKey (.arr (.cons (.str (cl "a")) .nil)) .nil)
    (.arr (.cons (.str (cl "a")) .nil)) (cl "") [] [] rfl rfl rfl
    (by decide) (by decide) (by decide)

/-- C9: when the loaded config carries a non-empty `default_courses` array,
every confirmation reply other than (stripped, lowercased) `n`, `no`, `reset`
— including the empty string and arbitrary text — makes
`get_or_set_default_courses` return exactly the saved array, consume only that
one input line, and perform no course search. -/
theorem c9_accept_returns_saved (fs : FileState) (kvs : JEntries) (l : JList)
    (r : List Char) (rest : List (List Char)) (sr : List Course)
    (hload : load_config fs = some (.obj kvs))
    (hdc : lookupKey kvs dcKey = some (.arr l))
    (hne : l ≠ .nil)
    (h1 : pyLower (pyStrip r) ≠ cl "n") (h2 : pyLower (pyStrip r) ≠ cl "no")
    (h3 : pyLower (pyStrip r) ≠ cl "reset") :
    (get_or_set_default_courses fs (r :: rest) sr).out = .ok (.arr l) ∧
    (get_or_set_default_courses fs (r :: rest) sr).rem = rest ∧
    ∀ z, Effect.searchedZip z ∉ (get_or_set_default_courses fs (r :: rest) sr).trace := by
  have htr : truthy (.arr l) = true := by
    cases l with
    | nil => exact absurd rfl hne
    | cons a t => rfl
  rw [run_accept fs kvs (.arr l) r rest sr hload hdc htr h1 h2 h3]
  refine ⟨rfl, rfl, fun z hz => ?_⟩
  simp at hz

theorem c9_witness :
    (get_or_set_default_courses (save_config savedConfigDemo)
        [cl "  MayBe ", cl "x"] demoCourses).out =
      .ok (.arr (.cons (.str (cl "a")) .nil)) ∧
    (get_or_set_default_courses (save_config savedConfigDemo)
        [cl "  MayBe ", cl "x"] demoCourses).rem = [cl "x"] ∧
    ∀ z, Effect.searchedZip z ∉
      (get_or_set_default_courses (save_config savedConfigDemo)
        [cl "  MayBe ", cl "x"] demoCourses).trace :=
  c9_accept_returns_saved (save_config savedConfigDemo)
    (.cons dcKey (.arr (.cons (.str (cl "a")) .nil)) .nil)
    (.cons (.str (cl "a")) .nil) (cl "  MayBe ") [cl "x"] demoCourses rfl rfl
    (fun h => JList.noConfusion h) (by decide) (by decide) (by decide)

/-- C10: whenever a run of `get_or_set_default_courses` writes the config
file, the written mapping is the loaded mapping with exactly the
`default_courses` and `zipcode` keys replaced (by a non-empty selection and
the entered ZIP code); lookup of every other key in the written mapping
agrees with the loaded one. -/
theorem c10_reselect_frame (fs : FileState) (inputs : List (List Char))
    (sr : List Course) (kvs : JEntries)
    (hload : load_config fs = some (.obj kvs))
    (hw : Effect.wroteConfig ∈ (get_or_set_default_courses fs inputs sr).trace) :
    ∃ sel zip, sel ≠ [] ∧
      (get_or_set_default_courses fs inputs sr).fs =
        save_config (.obj (insertKey (insertKey kvs dcKey (.arr (jStrs sel))) zipKey (.str zip))) ∧
      ∀ key, key ≠ dcKey → key ≠ zipKey →
        lookupKey (insertKey (insertKey kvs dcKey (.arr (jStrs sel))) zipKey (.str zip)) key =
          lookupKey kvs key := by
  unfold get_or_set_default_courses at hw ⊢
  rw [hload] at hw ⊢
  dsimp only at hw ⊢
  cases hdc : lookupKey kvs dcKey with
  | some dc =>
    rw [hdc] at hw
    dsimp only at hw ⊢
    by_cases htr : truthy dc
    · rw [if_pos htr] at hw ⊢
      cases inputs with
      | nil => simp at hw
      | cons r rest =>
        dsimp only at hw ⊢
        by_cases hresp : pyLower (pyStrip r) = cl "n" ∨ pyLower (pyStrip r) = cl "no" ∨
            pyLower (pyStrip r) = cl "reset"
        · rw [if_pos hresp] at hw ⊢
          exact setup_save kvs fs rest sr hw
        · rw [if_neg hresp] at hw
          simp at hw
    · rw [if_neg htr] at hw ⊢
      exact setup_save kvs fs inputs sr hw
  | none =>
    rw [hdc] at hw
    dsimp only at hw ⊢
    exact setup_save kvs fs inputs sr hw

theorem c10_witness :
    ∃ sel zip, sel ≠ [] ∧
      (get_or_set_default_courses (save_config (.obj .nil)) [cl "90210", cl "1"]
          demoCourses).fs =
        save_config (.obj (insertKey (insertKey JEntries.nil dcKey (.arr (jStrs sel)))
          zipKey (.str zip))) ∧
      ∀ key, key ≠ dcKey → key ≠ zipKey →
        lookupKey (insertKey (insertKey JEntries.nil dcKey (.arr (jStrs sel)))
            zipKey (.str zip)) key =
          lookupKey JEntries.nil key :=
  c10_reselect_frame (save_config (.obj .nil)) [cl "90210", cl "1"] demoCourses
    JEntries.nil rfl (by decide)
